import Mathlib

/-!
Verification of go-wrk (src/go-wrk.go): the statistics aggregator, the URL
supplier, header parsing, the channel capacities and the stop path of `main`.

Go `int`, `int64` and `time.Duration` values are integers; an addition the
program performs on them is followed by `wrap64`, the two-complement wrap of
a 64 bit signed integer.  A `time.Duration` is its number of nanoseconds.

`float64` arithmetic is kept uninterpreted: a value of `F64` is the tree of
operations the program applied, so every equation proved about such a value
holds whatever the rounding of the operations is.
-/

namespace GoWrk

/-! ## Machine integers and floats -/

/-- Signed 64 bit wrap of an integer into the range of a Go `int64`. -/
def wrap64 (x : Int) : Int := (x + 9223372036854775808) % 18446744073709551616 - 9223372036854775808

/-- The values a Go `int64` (and `int` on a 64 bit platform) can hold. -/
def inInt64 (x : Int) : Prop := -9223372036854775808 ≤ x ∧ x < 9223372036854775808

instance (x : Int) : Decidable (inInt64 x) := by unfold inInt64; infer_instance

/-- A `float64` value, recorded as the operations that produced it:
`ofInt n` is the conversion `float64(n)`, `seconds d` is `d.Seconds()` for a
`time.Duration` of `d` nanoseconds. -/
inductive F64 where
  | zero : F64
  | one : F64
  | ofInt (n : Int) : F64
  | seconds (d : Int) : F64
  | add (a b : F64) : F64
  | div (a b : F64) : F64
  deriving DecidableEq, Repr

/-- The operand is the float zero for certain: the literal zero, the
conversion of the integer zero, or the seconds of the zero duration. -/
def F64.isZero : F64 → Bool
  | .zero => true
  | .ofInt n => n == 0
  | .seconds d => d == 0
  | _ => false

/-- Some division evaluated on the way to this value had a zero divisor. -/
def F64.hasZeroDiv : F64 → Bool
  | .add a b => a.hasZeroDiv || b.hasZeroDiv
  | .div a b => a.hasZeroDiv || b.hasZeroDiv || b.isZero
  | _ => false

/-! ## Statistics records -/

/-- Modelled from the spec: the type `loader.RequesterStats` (the StatsRecord
and the AggregateReport of the data model), whose declaration is in the
`loader` package; the fields are the ones `main` reads and writes. -/
structure RequesterStats where
  TotRespSize : Int
  TotDuration : Int
  MinRequestTime : Int
  MaxRequestTime : Int
  NumRequests : Int
  NumErrs : Int
  ErrUrl : String
  ErrStr : String
  TotReqPerSec : F64
  deriving DecidableEq, Repr

/-- The duration `time.Minute`, in nanoseconds. -/
def Minute : Int := 60000000000

/-- The duration `time.Second`, in nanoseconds. -/
def Second : Int := 1000000000

/-- Modelled from the spec: `util.MaxDuration`, the larger of two durations
(the merge of the maximum latency is a componentwise max). -/
def MaxDuration (d1 d2 : Int) : Int := if d1 > d2 then d1 else d2

/-- Modelled from the spec: `util.MinDuration`, the smaller of two durations
(the merge of the minimum latency is a componentwise min). -/
def MinDuration (d1 d2 : Int) : Int := if d1 < d2 then d1 else d2

/-- The zero value of `RequesterStats`. -/
def RequesterStats.zeroValue : RequesterStats :=
  { TotRespSize := 0, TotDuration := 0, MinRequestTime := 0, MaxRequestTime := 0,
    NumRequests := 0, NumErrs := 0, ErrUrl := "", ErrStr := "", TotReqPerSec := F64.zero }

/-- The variables of the aggregator goroutine: `aggStats` and `responders`. -/
structure AggState where
  aggStats : RequesterStats
  responders : Int
  deriving DecidableEq, Repr

/-- The initial values: `responders := 0` and
`aggStats := loader.RequesterStats{MinRequestTime: time.Minute}`. -/
def AggState.init : AggState :=
  { aggStats := { RequesterStats.zeroValue with MinRequestTime := Minute }, responders := 0 }

/-- The test `stats.NumErrs > 0 && len(stats.ErrUrl) > 0` of the aggregator. -/
def failedUrlBranch (stats : RequesterStats) : Bool :=
  decide (stats.NumErrs > 0) && decide (stats.ErrUrl.length > 0)

/-- The body of the `case stats, ok := <-statsAggregator` branch for a
received record (`ok` true): the six merges, the `responders` count and the
rate accumulator.  The two progress lines it prints are not part of the state. -/
def recvStats (st : AggState) (stats : RequesterStats) : AggState :=
  let a0 := st.aggStats
  let a1 := { a0 with NumErrs := wrap64 (a0.NumErrs + stats.NumErrs) }
  let a2 := { a1 with NumRequests := wrap64 (a1.NumRequests + stats.NumRequests) }
  let a3 := { a2 with TotRespSize := wrap64 (a2.TotRespSize + stats.TotRespSize) }
  let a4 := { a3 with TotDuration := wrap64 (a3.TotDuration + stats.TotDuration) }
  let a5 := { a4 with MaxRequestTime := MaxDuration a4.MaxRequestTime stats.MaxRequestTime }
  let a6 := { a5 with MinRequestTime := MinDuration a5.MinRequestTime stats.MinRequestTime }
  let responders := wrap64 (st.responders + 1)
  if failedUrlBranch stats then
    { aggStats := a6, responders := responders }
  else
    let rate := F64.add a6.TotReqPerSec (F64.div F64.one (F64.seconds stats.TotDuration))
    { aggStats := { a6 with TotReqPerSec := rate }, responders := responders }

/-- The aggregator after it received the records in the given arrival order. -/
def aggregateAll (records : List RequesterStats) : AggState :=
  records.foldl recvStats AggState.init

/-- What `main` prints once the aggregator is done. -/
inductive Report where
  | noStatistics : Report
  | printed (numRequests : Int) (totRespSize : Int) (reqRate : F64) (avgReqsPerSec : F64)
      (bytesRate : F64) (bytesRateAvg : F64) (fastest slowest : Int) (numErrs : Int) : Report
  deriving DecidableEq, Repr

/-- The end of `main`: the empty report when `aggStats.NumRequests == 0`, the
printed figures otherwise.  `totalDuration` is `time.Since(startTime)`. -/
def report (aggStats : RequesterStats) (totalDuration : Int) : Report :=
  if aggStats.NumRequests == 0 then
    Report.noStatistics
  else
    let reqRate := F64.div (F64.ofInt aggStats.NumRequests) (F64.seconds totalDuration)
    let bytesRate := F64.div (F64.ofInt aggStats.TotRespSize) (F64.seconds totalDuration)
    let bytesRateAvg := F64.div (F64.ofInt aggStats.TotRespSize) (F64.seconds aggStats.TotDuration)
    Report.printed aggStats.NumRequests aggStats.TotRespSize reqRate
      (F64.div aggStats.TotReqPerSec (F64.ofInt aggStats.NumRequests))
      bytesRate bytesRateAvg aggStats.MinRequestTime aggStats.MaxRequestTime aggStats.NumErrs

/-- The figure printed as `Avg Reqs/sec`, when a report is printed. -/
def Report.avgReqsPerSec : Report → Option F64
  | .noStatistics => none
  | .printed _ _ _ avg _ _ _ _ _ => some avg

/-! ## The URL supplier -/

/-- A list file as `bufio.Scanner` presents it: the lines `scan.Text()`
yields in order, then what `scan.Err()` reports (`none` at a clean end). -/
structure ListFile where
  lines : List String
  scanErr : Option String
  deriving DecidableEq, Repr

/-- The files that exist: the outcome of opening each path. -/
abbrev FileSystem := String → Except String ListFile

/-- The call `os.Open(name)`: the empty path never names a file (the system
call reports ENOENT for it), any other path is looked up. -/
def osOpen (fs : FileSystem) (name : String) : Except String ListFile :=
  if name = "" then Except.error "open : no such file or directory" else fs name

/-- How the supplier goroutine ends. -/
inductive SupplierExit where
  | closedQueue : SupplierExit
  | failedToOpen (err : String) : SupplierExit
  | failedToRead (err : String) : SupplierExit
  deriving DecidableEq, Repr

/-- The loop `for scan.Scan() { fp := baseUrl + scan.Text(); fileQueue <- fp }`:
`pushed` is the sequence of entries sent on the URL queue so far. -/
def scanLoop (baseUrl : String) : List String → List String → List String
  | [], pushed => pushed
  | line :: rest, pushed => scanLoop baseUrl rest (pushed ++ [baseUrl ++ line])

/-- The loop `for ii := 0; ii < repeatNumb; ii++` of the supplier, with the
number of passes still to run: open the file (fatal exit when that fails),
push every line, fatal exit on a scan error. When the passes are over the
deferred `close(fileQueue)` runs. -/
def supplierLoop (fs : FileSystem) (urlFile baseUrl : String) :
    Nat → List String → SupplierExit × List String
  | 0, pushed => (SupplierExit.closedQueue, pushed)
  | n + 1, pushed =>
    match osOpen fs urlFile with
    | Except.error e => (SupplierExit.failedToOpen e, pushed)
    | Except.ok f =>
      let pushed1 := scanLoop baseUrl f.lines pushed
      match f.scanErr with
      | some e => (SupplierExit.failedToRead e, pushed1)
      | none => supplierLoop fs urlFile baseUrl n pushed1

/-- The supplier goroutine run to its end with nobody closing the queue under
it: how it ends and the entries it sent, in order. -/
def supplier (fs : FileSystem) (urlFile baseUrl : String) (repeatNumb : Int) :
    SupplierExit × List String :=
  supplierLoop fs urlFile baseUrl repeatNumb.toNat []

/-! ## Header parsing -/

/-- The run-time panics of the program. -/
inductive Panic where
  | indexOutOfRange (index len : Nat) : Panic
  | closeOfClosedChannel : Panic
  | sendOnClosedChannel : Panic
  | makechanSizeOutOfRange : Panic
  deriving DecidableEq, Repr

/-- The text before and after the first occurrence of `sep`, if there is one. -/
def cutFirst (sep : Char) : List Char → Option (List Char × List Char)
  | [] => none
  | c :: cs =>
    if c = sep then some ([], cs)
    else match cutFirst sep cs with
      | none => none
      | some (a, b) => some (c :: a, b)

/-- The call `strings.SplitN(s, sep, n)` for a one character separator and
`n ≥ 0`: at most `n` pieces, the last one being the unsplit remainder. -/
def SplitN (sep : Char) : Nat → String → List String
  | 0, _ => []
  | 1, s => [s]
  | n + 2, s =>
    match cutFirst sep s.data with
    | none => [s]
    | some (a, b) => String.mk a :: SplitN sep (n + 1) (String.mk b)

/-- A Go `map[string]string`: at most one entry for each key. -/
abbrev HeaderMap := List (String × String)

/-- The assignment `m[k] = v`. -/
def HeaderMap.set (m : HeaderMap) (k v : String) : HeaderMap :=
  (k, v) :: m.filter (fun p => p.1 != k)

/-- The lookup `m[k]`, `none` when the key is absent. -/
def HeaderMap.get (m : HeaderMap) (k : String) : Option String :=
  match m.find? (fun p => p.1 == k) with
  | none => none
  | some p => some p.2

/-- The loop over `headerFlags`: `hp := strings.SplitN(hdr, ":", 2)` then
`header[hp[0]] = hp[1]`, an index past the end of `hp` being a panic. -/
def parseHeaders : List String → HeaderMap → Except Panic HeaderMap
  | [], header => Except.ok header
  | hdr :: rest, header =>
    let hp := SplitN ':' 2 hdr
    match hp.get? 0, hp.get? 1 with
    | none, _ => Except.error (Panic.indexOutOfRange 0 hp.length)
    | some _, none => Except.error (Panic.indexOutOfRange 1 hp.length)
    | some k, some v => parseHeaders rest (header.set k v)

/-- The header map `main` builds: `header = make(map[string]string)` then the loop. -/
def headerOfFlags (headerFlags : List String) : Except Panic HeaderMap :=
  parseHeaders headerFlags []

/-- The value of the last flag whose text before the first colon is exactly
`k` (the statement of last write wins on verbatim keys). -/
def lastWritten (headerFlags : List String) (k : String) : Option String :=
  match headerFlags.reverse.find? (fun hdr => (SplitN ':' 2 hdr).get? 0 == some k) with
  | none => none
  | some hdr => (SplitN ':' 2 hdr).get? 1

/-! ## Flags and channel capacities -/

/-- The package variables that decide how far `main` gets and how large its
channels are. -/
structure Globals where
  versionFlag : Bool
  helpFlag : Bool
  duration : Int
  goroutines : Int
  testUrl : String
  headerFlags : List String
  playbackFile : String
  reqBody : String
  baseUrl : String
  urlFile : String
  repeatNumb : Int
  deriving DecidableEq, Repr

/-- The initialisers of the package variables: `versionFlag bool = false`,
`helpFlag bool = false`, `duration int = 10`, `goroutines int = 2`, the zero
value for the others. -/
def Globals.declared : Globals :=
  { versionFlag := false, helpFlag := false, duration := 10, goroutines := 2, testUrl := "",
    headerFlags := [], playbackFile := "", reqBody := "", baseUrl := "", urlFile := "",
    repeatNumb := 0 }

/-- The function `init`: registering a flag with `flag.BoolVar`, `flag.IntVar`
or `flag.StringVar` stores the default of the flag in its variable. -/
def Globals.init (g : Globals) : Globals :=
  { g with versionFlag := false, helpFlag := false, goroutines := 10, duration := 10,
           playbackFile := "<empty>", reqBody := "", baseUrl := "", urlFile := "",
           repeatNumb := 1 }

/-- One flag of the command line. `other` stands for the flags whose variable
`main` only hands on to the loader (`-redir`, `-no-c`, `-no-ka`, `-no-vr`, `-T`,
`-M`, `-host`, `-cert`, `-key`, `-ca`, `-http`, `-server-addr`). -/
inductive Flag where
  | v (b : Bool) : Flag
  | help (b : Bool) : Flag
  | c (n : Int) : Flag
  | d (n : Int) : Flag
  | H (hdr : String) : Flag
  | f (path : String) : Flag
  | body (s : String) : Flag
  | baseurl (s : String) : Flag
  | urlFile (s : String) : Flag
  | repeatNumb (n : Int) : Flag
  | other (name value : String) : Flag
  deriving DecidableEq, Repr

/-- The effect of one parsed flag on its variable. -/
def Flag.apply (g : Globals) : Flag → Globals
  | Flag.v b => { g with versionFlag := b }
  | Flag.help b => { g with helpFlag := b }
  | Flag.c n => { g with goroutines := n }
  | Flag.d n => { g with duration := n }
  | Flag.H hdr => { g with headerFlags := g.headerFlags ++ [hdr] }
  | Flag.f path => { g with playbackFile := path }
  | Flag.body s => { g with reqBody := s }
  | Flag.baseurl s => { g with baseUrl := s }
  | Flag.urlFile s => { g with urlFile := s }
  | Flag.repeatNumb n => { g with repeatNumb := n }
  | Flag.other _ _ => g

/-- The call `flag.Parse()`: the flags are applied from left to right. -/
def flagParse (args : List Flag) (g : Globals) : Globals :=
  args.foldl Flag.apply g

/-- A command line that `flag.Parse()` accepts: its flags, and the arguments
left after them (`flag.Arg(0)` is the first one, the empty string if none). -/
structure CommandLine where
  flags : List Flag
  positional : List String
  deriving DecidableEq, Repr

/-- What `main` depends on outside the program: the content of the files it
reads whole (`ioutil.ReadAll`, `ioutil.ReadFile`), and whether the runtime can
allocate the buffer of a channel of so many elements of so many bytes. -/
structure Env where
  readFile : String → Except String String
  canAlloc : Nat → Nat → Bool

/-- The ways `main` ends before it launches the workers. -/
inductive MainEnd where
  | panicked (p : Panic) : MainEnd
  | exited (code : Nat) : MainEnd
  | returnedEarly : MainEnd
  | allocationFailed : MainEnd
  deriving DecidableEq, Repr

/-- The sizes `main` fixes: the capacity of the stats channel, the capacity
of the URL queue, and the number of workers that the launch loop of lines
173-176 starts when it runs to its end (the supplier goroutine, started before
the loop, may end the process earlier by its fatal exit). -/
structure Sizes where
  statsAggregatorCap : Int
  fileQueueCap : Int
  launchCount : Int
  deriving DecidableEq, Repr

/-- The call `make(chan T, size)` for elements of `elemSize` bytes: a negative
size panics, a buffer the runtime cannot allocate stops the program, and the
channel has the capacity `size` otherwise. -/
def makeChan (env : Env) (elemSize : Nat) (size : Int) : Except MainEnd Int :=
  if size < 0 then Except.error (MainEnd.panicked Panic.makechanSizeOutOfRange)
  else if env.canAlloc elemSize size.toNat then Except.ok size
  else Except.error MainEnd.allocationFailed

/-- The value of `testUrl` after lines 101-119: the content of the playback
file when `-f` is given (exit 1 when it cannot be read), else `flag.Arg(0)`,
replaced by `foo` when empty. -/
def resolveTestUrl (env : Env) (g : Globals) (positional : List String) :
    Except MainEnd String :=
  if g.playbackFile != "<empty>" then
    match env.readFile g.playbackFile with
    | Except.error _ => Except.error (MainEnd.exited 1)
    | Except.ok url => Except.ok url
  else
    let arg0 := match positional with
      | [] => ""
      | a :: _ => a
    if arg0.length = 0 then Except.ok "foo" else Except.ok arg0

/-- The value of `reqBody` after lines 131-139: a body that starts with `@`
is replaced by the content of the file named after it (exit 1 when it cannot
be read). -/
def resolveReqBody (env : Env) (reqBody : String) : Except MainEnd String :=
  match reqBody.data with
  | '@' :: bodyFilename =>
    match env.readFile (String.mk bodyFilename) with
    | Except.error _ => Except.error (MainEnd.exited 1)
    | Except.ok data => Except.ok data
  | _ => Except.ok reqBody

/-- The function `main` from its first line to the loop that launches the
workers, in the order of the source: `statsAggregator = make(chan ...,
goroutines)` on the variables as `init` left them; `sigChan := make(chan
os.Signal, 1)`; `flag.Parse()`; the header
loop (which may panic); `testUrl` (which may exit); the return for `-v`, for
`-help` and for an empty `testUrl`; the request body (which may exit);
`loader.NewLoadCfg`, which only stores its arguments; `fileQueue := make(chan
string, goroutines)`; and the launch loop, one worker for each `i` from 0
below `goroutines`. -/
def mainToLaunch (env : Env) (cl : CommandLine) : Except MainEnd Sizes :=
  let g0 := Globals.init Globals.declared
  match makeChan env 8 g0.goroutines with
  | Except.error e => Except.error e
  | Except.ok statsCap =>
    match makeChan env 16 1 with
    | Except.error e => Except.error e
    | Except.ok _ =>
      let g1 := flagParse cl.flags g0
      match headerOfFlags g1.headerFlags with
      | Except.error p => Except.error (MainEnd.panicked p)
      | Except.ok _ =>
        match resolveTestUrl env g1 cl.positional with
        | Except.error e => Except.error e
        | Except.ok testUrl =>
          if g1.versionFlag then Except.error MainEnd.returnedEarly
          else if g1.helpFlag || testUrl.length == 0 then Except.error MainEnd.returnedEarly
          else
            match resolveReqBody env g1.reqBody with
            | Except.error e => Except.error e
            | Except.ok _ =>
              match makeChan env 16 g1.goroutines with
              | Except.error e => Except.error e
              | Except.ok fileQueueCap =>
                Except.ok { statsAggregatorCap := statsCap, fileQueueCap := fileQueueCap,
                            launchCount := Int.ofNat g1.goroutines.toNat }

/-! ## The goroutines of `main` and the stop path -/

/-- A buffered channel: the values waiting in it, its capacity, and whether
it has been closed. -/
structure Chan (α : Type) where
  buf : List α
  cap : Nat
  closed : Bool
  deriving DecidableEq, Repr

/-- Where the main goroutine stands, from `wg.Wait()` on. -/
inductive MainPc where
  | wgWait : MainPc
  | closeStats : MainPc
  | recvDone : MainPc
  | printReport : MainPc
  | returned : MainPc
  deriving DecidableEq, Repr

/-- Where the aggregator goroutine stands: at its `select`, inside the
`case <-sigChan` branch (one position for each statement), at the
`doneCh <- 1` of the branch for a closed stats channel, or returned. -/
inductive AggPc where
  | select : AggPc
  | sigStop : AggPc
  | sigCloseFileQueue : AggPc
  | sigCloseStats : AggPc
  | sigSendDone : AggPc
  | sigPrintStopping : AggPc
  | closedSendDone : AggPc
  | returned : AggPc
  deriving DecidableEq, Repr

/-- The state of the process once the workers, the supplier and the
aggregator goroutine are started.
`supPending` are the entries the supplier has still to send, `supSent` the
entries it has sent on the URL queue so far, and `supExit` the way it ends
after the last one; `workers` are the workers still in their loop, each
with the record it sends when it leaves; `exiting` counts the workers that
have sent their record and not yet called `wg.Done()`; `wg` is the counter of
the WaitGroup; `sigPending` is the content of `sigChan`.  `sigTaken` records
that the aggregator entered the `case <-sigChan` branch. -/
structure Sys where
  mainPc : MainPc
  aggPc : AggPc
  agg : AggState
  supPending : List String
  supSent : List String
  supExit : SupplierExit
  supDone : Bool
  fileQueue : Chan String
  statsAggregator : Chan RequesterStats
  workers : List RequesterStats
  exiting : Nat
  wg : Nat
  stopped : Bool
  sigPending : Bool
  sigTaken : Bool
  totalDuration : Int
  output : Option Report
  crash : Option Panic
  exitCode : Option Nat
  deriving DecidableEq, Repr

/-- What the scheduler lets happen next: the environment delivers a signal,
or one goroutine runs up to its next statement. At its `select` the
aggregator is told which ready case to take. -/
inductive Action where
  | signal : Action
  | main : Action
  | aggregator (takeSignal : Bool) : Action
  | supplier : Action
  | workerRecv : Action
  | workerExit : Action
  | workerDone : Action
  deriving DecidableEq, Repr

/-- The state after the launch loop of `main`: `c` workers (one for each
record of `workers`), an URL queue of capacity `c`, a stats channel of
capacity `statsCap`. -/
def Sys.start (statsCap : Nat) (workers : List RequesterStats)
    (sup : SupplierExit × List String) (totalDuration : Int) : Sys :=
  { mainPc := MainPc.wgWait, aggPc := AggPc.select, agg := AggState.init,
    supPending := sup.2, supSent := [], supExit := sup.1, supDone := false,
    fileQueue := { buf := [], cap := workers.length, closed := false },
    statsAggregator := { buf := [], cap := statsCap, closed := false },
    workers := workers, exiting := 0, wg := workers.length,
    stopped := false, sigPending := false, sigTaken := false,
    totalDuration := totalDuration, output := none, crash := none, exitCode := none }

/-- The main goroutine: `wg.Wait()`, `close(statsAggregator)`, `<-doneCh`
(left by the send of the aggregator), then the report. -/
def stepMain (s : Sys) : Sys :=
  match s.mainPc with
  | MainPc.wgWait => if s.wg = 0 then { s with mainPc := MainPc.closeStats } else s
  | MainPc.closeStats =>
    if s.statsAggregator.closed then { s with crash := some Panic.closeOfClosedChannel }
    else { s with statsAggregator := { s.statsAggregator with closed := true },
                  mainPc := MainPc.recvDone }
  | MainPc.recvDone => s
  | MainPc.printReport =>
    { s with output := some (report s.agg.aggStats s.totalDuration), mainPc := MainPc.returned }
  | MainPc.returned => s

/-- The aggregator goroutine. -/
def stepAggregator (takeSignal : Bool) (s : Sys) : Sys :=
  match s.aggPc with
  | AggPc.select =>
    if takeSignal then
      if s.sigPending then
        { s with sigPending := false, sigTaken := true, aggPc := AggPc.sigStop }
      else s
    else
      match s.statsAggregator.buf with
      | stats :: rest =>
        { s with statsAggregator := { s.statsAggregator with buf := rest },
                 agg := recvStats s.agg stats }
      | [] => if s.statsAggregator.closed then { s with aggPc := AggPc.closedSendDone } else s
  | AggPc.sigStop => { s with stopped := true, aggPc := AggPc.sigCloseFileQueue }
  | AggPc.sigCloseFileQueue =>
    if s.fileQueue.closed then { s with crash := some Panic.closeOfClosedChannel }
    else { s with fileQueue := { s.fileQueue with closed := true },
                  aggPc := AggPc.sigCloseStats }
  | AggPc.sigCloseStats =>
    if s.statsAggregator.closed then { s with crash := some Panic.closeOfClosedChannel }
    else { s with statsAggregator := { s.statsAggregator with closed := true },
                  aggPc := AggPc.sigSendDone }
  | AggPc.sigSendDone =>
    if s.mainPc = MainPc.recvDone then
      { s with mainPc := MainPc.printReport, aggPc := AggPc.sigPrintStopping }
    else s
  | AggPc.sigPrintStopping => { s with aggPc := AggPc.select }
  | AggPc.closedSendDone =>
    if s.mainPc = MainPc.recvDone then
      { s with mainPc := MainPc.printReport, aggPc := AggPc.returned }
    else s
  | AggPc.returned => s

/-- The supplier goroutine: the next `fileQueue <- fp`, and after the last one
its end, the deferred `close(fileQueue)` or the fatal exit. -/
def stepSupplier (s : Sys) : Sys :=
  if s.supDone then s
  else
    match s.supPending with
    | fp :: rest =>
      if s.fileQueue.closed then { s with crash := some Panic.sendOnClosedChannel }
      else if s.fileQueue.buf.length < s.fileQueue.cap then
        { s with fileQueue := { s.fileQueue with buf := s.fileQueue.buf ++ [fp] },
                 supPending := rest, supSent := s.supSent ++ [fp] }
      else s
    | [] =>
      match s.supExit with
      | SupplierExit.closedQueue =>
        if s.fileQueue.closed then { s with crash := some Panic.closeOfClosedChannel }
        else { s with fileQueue := { s.fileQueue with closed := true }, supDone := true }
      | SupplierExit.failedToOpen _ => { s with exitCode := some 1 }
      | SupplierExit.failedToRead _ => { s with exitCode := some 1 }

/-- Modelled from the spec: the part of `loader.RunSingleLoadSession` that
meets the channels of `main`. A worker takes its next target from the URL
queue; when its loop ends it sends its StatsRecord to the aggregator, then
signals pool completion. -/
def stepWorker (a : Action) (s : Sys) : Sys :=
  match a with
  | Action.workerRecv => { s with fileQueue := { s.fileQueue with buf := s.fileQueue.buf.tail } }
  | Action.workerExit =>
    match s.workers with
    | [] => s
    | stats :: rest =>
      if s.statsAggregator.closed then { s with crash := some Panic.sendOnClosedChannel }
      else if s.statsAggregator.buf.length < s.statsAggregator.cap then
        { s with statsAggregator := { s.statsAggregator with buf := s.statsAggregator.buf ++ [stats] },
                 workers := rest, exiting := s.exiting + 1 }
      else s
  | Action.workerDone =>
    if 0 < s.exiting then { s with exiting := s.exiting - 1, wg := s.wg - 1 } else s
  | _ => s

/-- One step of the process. Nothing runs after a panic, after `os.Exit`, or
after `main` returned. -/
def step (s : Sys) (a : Action) : Sys :=
  if s.crash.isSome || s.exitCode.isSome || s.mainPc == MainPc.returned then s
  else
    match a with
    | Action.signal => { s with sigPending := true }
    | Action.main => stepMain s
    | Action.aggregator takeSignal => stepAggregator takeSignal s
    | Action.supplier => stepSupplier s
    | Action.workerRecv => stepWorker Action.workerRecv s
    | Action.workerExit => stepWorker Action.workerExit s
    | Action.workerDone => stepWorker Action.workerDone s

/-- The process after the steps of a schedule. -/
def run (sched : List Action) (s : Sys) : Sys :=
  sched.foldl step s

/-- The run ended the way the stop path is meant to end: `main` printed the
empty report and returned, nothing panicked, nothing called `os.Exit`. -/
def Sys.stoppedCleanly (s : Sys) : Prop :=
  s.mainPc = MainPc.returned ∧ s.output = some Report.noStatistics ∧
    s.crash = none ∧ s.exitCode = none

instance (s : Sys) : Decidable s.stoppedCleanly := by
  unfold Sys.stoppedCleanly; infer_instance

/-- The facts about the positions of `main` and of the aggregator that every
step keeps: `main` is past its `close(statsAggregator)` only with the channel
closed; the aggregator waits at the `doneCh <- 1` of the signal branch only
with the channel closed by itself and `main` still before its own close;
once the signal branch is entered the aggregator stays inside it and `main`
stays at or before `<-doneCh`; and `main` is past `<-doneCh` only after the
aggregator returned. -/
def StopInv (s : Sys) : Prop :=
  ((s.mainPc = MainPc.recvDone ∨ s.mainPc = MainPc.printReport ∨ s.mainPc = MainPc.returned) →
    s.statsAggregator.closed = true) ∧
  (s.aggPc = AggPc.sigSendDone →
    s.statsAggregator.closed = true ∧
      (s.mainPc = MainPc.wgWait ∨ s.mainPc = MainPc.closeStats)) ∧
  (s.sigTaken = true →
    (s.aggPc = AggPc.sigStop ∨ s.aggPc = AggPc.sigCloseFileQueue ∨
      s.aggPc = AggPc.sigCloseStats ∨ s.aggPc = AggPc.sigSendDone) ∧
    (s.mainPc = MainPc.wgWait ∨ s.mainPc = MainPc.closeStats ∨ s.mainPc = MainPc.recvDone)) ∧
  ((s.mainPc = MainPc.printReport ∨ s.mainPc = MainPc.returned) → s.aggPc = AggPc.returned)

/-- The file lines in order, each after the base URL, repeated `R` times. -/
def urlSequence (baseUrl : String) (lines : List String) (R : Nat) : List String :=
  (List.replicate R (lines.map (fun line => baseUrl ++ line))).flatten

/-- The process after a schedule, started with `workers` and the supplier of
the given list file, base URL and repeat count. -/
def supplierRun (fs : FileSystem) (urlFile baseUrl : String) (R : Nat) (statsCap : Nat)
    (workers : List RequesterStats) (totalDuration : Int) (sched : List Action) : Sys :=
  run sched (Sys.start statsCap workers (supplier fs urlFile baseUrl (R : Int)) totalDuration)

/-- The facts about the URL queue that every step keeps, `full` being all the
entries of the supplier: what is sent and what is pending make up `full`; the
queue holds the last entries sent, never more than its capacity; the deferred
close runs only when nothing is pending; the queue is closed only by the
signal branch or by that deferred close; and the aggregator is on its way to
`close(fileQueue)` only inside the signal branch. -/
def SupInv (full : List String) (s : Sys) : Prop :=
  s.supSent ++ s.supPending = full ∧
  (∃ taken : List String, s.supSent = taken ++ s.fileQueue.buf) ∧
  s.fileQueue.buf.length ≤ s.fileQueue.cap ∧
  (s.supDone = true → s.supPending = [] ∧ s.fileQueue.closed = true) ∧
  (s.fileQueue.closed = true → s.sigTaken = true ∨ s.supDone = true) ∧
  ((s.aggPc = AggPc.sigStop ∨ s.aggPc = AggPc.sigCloseFileQueue) → s.sigTaken = true)

/-- A state in which the supplier and the workers can go on undisturbed: no
panic, no exit, `main` still in `wg.Wait()`, the queue open and empty with
room for an entry, and the supplier due to end by its deferred close. -/
def DrainReady (s : Sys) : Prop :=
  s.crash = none ∧ s.exitCode = none ∧ s.mainPc = MainPc.wgWait ∧ s.supDone = false ∧
  s.supExit = SupplierExit.closedQueue ∧ s.fileQueue.closed = false ∧ s.fileQueue.buf = [] ∧
  0 < s.fileQueue.cap ∧ s.sigTaken = false

/-- The schedule in which the supplier sends `n` entries, a worker taking each
one as it comes, and then runs its deferred close. -/
def drainSchedule : Nat → List Action
  | 0 => [Action.supplier]
  | n + 1 => Action.supplier :: Action.workerRecv :: drainSchedule n

/-! ## Sample inputs -/

/-- The record of a worker that completed five requests in one second of
request time, without an error. -/
def busyRecord : RequesterStats :=
  { RequesterStats.zeroValue with
    NumRequests := 5, TotRespSize := 500, TotDuration := 1000000000,
    MinRequestTime := 100000000, MaxRequestTime := 300000000 }

/-- The record of a worker that found the URL queue drained: zero requests,
zero errors, zero total duration. -/
def idleRecord : RequesterStats := RequesterStats.zeroValue

/-- The record of a worker whose last request failed on a known URL. -/
def failedRecord : RequesterStats :=
  { RequesterStats.zeroValue with
    NumRequests := 2, NumErrs := 1, TotDuration := 500000000,
    ErrUrl := "http://h/a", ErrStr := "timeout" }

/-- A file system with one list file of three lines, `objects.txt`. -/
def sampleFs : FileSystem := fun name =>
  if name = "objects.txt" then Except.ok { lines := ["a", "b", "c"], scanErr := none }
  else Except.error "open: no such file or directory"

/-- A file system in which every lookup finds a one line file. -/
def permissiveFs : FileSystem := fun _ => Except.ok { lines := ["a"], scanErr := none }

/-- Two workers that complete no request, the three line list file, one pass. -/
def sampleStart : Sys :=
  Sys.start 10 [idleRecord, idleRecord] (supplier sampleFs "objects.txt" "http://h/" 1) 2000000000

/-- Both workers leave their loop, the signal arrives, `main` comes out of
`wg.Wait()`, the aggregator runs its signal branch up to the send on `doneCh`,
then `main` runs its `close(statsAggregator)`. -/
def signalThenMainClose : List Action :=
  [Action.workerExit, Action.workerDone, Action.workerExit, Action.workerDone,
   Action.signal, Action.main,
   Action.aggregator true, Action.aggregator false, Action.aggregator false,
   Action.aggregator false, Action.main]

/-- The signal arrives while the workers are in their loop, the aggregator runs
its signal branch up to the send on `doneCh`, then a worker leaves its loop. -/
def signalThenWorkerExit : List Action :=
  [Action.signal, Action.aggregator true, Action.aggregator false, Action.aggregator false,
   Action.aggregator false, Action.workerExit]

/-- The supplier sends its three entries (the workers take two of them) and
runs its deferred close, then the signal arrives and the aggregator runs its
signal branch up to `close(fileQueue)`. -/
def supplierDoneThenSignal : List Action :=
  [Action.supplier, Action.supplier, Action.workerRecv, Action.workerRecv,
   Action.supplier, Action.supplier,
   Action.signal, Action.aggregator true, Action.aggregator false, Action.aggregator false]

/-- A run without a signal: the workers leave, `main` closes the stats
channel, the aggregator drains it and hands over on `doneCh`, `main` reports. -/
def noSignalSchedule : List Action :=
  [Action.workerExit, Action.workerDone, Action.workerExit, Action.workerDone,
   Action.main, Action.main,
   Action.aggregator false, Action.aggregator false, Action.aggregator false,
   Action.aggregator false, Action.main]

/-- An environment without readable files in which every channel buffer can
be allocated. -/
def sampleEnv : Env :=
  { readFile := fun _ => Except.error "no such file or directory", canAlloc := fun _ _ => true }

/-- A run without a signal in which the supplier fills the URL queue, then both
workers reach the end of their duration and leave, and `main` reports. -/
def durationExpirySchedule : List Action :=
  [Action.supplier, Action.supplier, Action.supplier,
   Action.workerExit, Action.workerDone, Action.workerExit, Action.workerDone,
   Action.main, Action.main,
   Action.aggregator false, Action.aggregator false, Action.aggregator false,
   Action.aggregator false, Action.main, Action.supplier]

/-! ## The aggregated totals -/

theorem wrap64_add_left (a b : Int) : wrap64 (wrap64 a + b) = wrap64 (a + b) := by
  unfold wrap64
  omega

theorem wrap64_idem (a : Int) : wrap64 (wrap64 a) = wrap64 a := by
  unfold wrap64
  omega

theorem wrap64_of_inInt64 {x : Int} (h : inInt64 x) : wrap64 x = x := by
  unfold inInt64 at h
  unfold wrap64
  omega

theorem recvStats_NumRequests (st : AggState) (stats : RequesterStats) :
    (recvStats st stats).aggStats.NumRequests
      = wrap64 (st.aggStats.NumRequests + stats.NumRequests) := by
  unfold recvStats
  split <;> rfl

theorem recvStats_NumErrs (st : AggState) (stats : RequesterStats) :
    (recvStats st stats).aggStats.NumErrs = wrap64 (st.aggStats.NumErrs + stats.NumErrs) := by
  unfold recvStats
  split <;> rfl

theorem recvStats_TotRespSize (st : AggState) (stats : RequesterStats) :
    (recvStats st stats).aggStats.TotRespSize
      = wrap64 (st.aggStats.TotRespSize + stats.TotRespSize) := by
  unfold recvStats
  split <;> rfl

theorem recvStats_TotDuration (st : AggState) (stats : RequesterStats) :
    (recvStats st stats).aggStats.TotDuration
      = wrap64 (st.aggStats.TotDuration + stats.TotDuration) := by
  unfold recvStats
  split <;> rfl

theorem recvStats_MaxRequestTime (st : AggState) (stats : RequesterStats) :
    (recvStats st stats).aggStats.MaxRequestTime
      = MaxDuration st.aggStats.MaxRequestTime stats.MaxRequestTime := by
  unfold recvStats
  split <;> rfl

theorem recvStats_MinRequestTime (st : AggState) (stats : RequesterStats) :
    (recvStats st stats).aggStats.MinRequestTime
      = MinDuration st.aggStats.MinRequestTime stats.MinRequestTime := by
  unfold recvStats
  split <;> rfl

/-- A total kept by wrapped additions is the wrap of the exact sum. -/
theorem foldl_wrapped_total (f : RequesterStats → Int) (g : AggState → Int)
    (hstep : ∀ st stats, g (recvStats st stats) = wrap64 (g st + f stats))
    (records : List RequesterStats) (st : AggState) (hst : wrap64 (g st) = g st) :
    g (records.foldl recvStats st) = wrap64 (g st + (records.map f).sum) := by
  induction records generalizing st with
  | nil => simpa using hst.symm
  | cons r rs ih =>
    simp only [List.foldl_cons, List.map_cons, List.sum_cons]
    rw [ih (recvStats st r) (by rw [hstep, wrap64_idem]), hstep, wrap64_add_left, add_assoc]

theorem aggregateAll_NumRequests (records : List RequesterStats) :
    (aggregateAll records).aggStats.NumRequests
      = wrap64 (records.map (fun r => r.NumRequests)).sum := by
  have h := foldl_wrapped_total (fun r => r.NumRequests) (fun st => st.aggStats.NumRequests)
    recvStats_NumRequests records AggState.init (by decide)
  simpa [aggregateAll, AggState.init, RequesterStats.zeroValue] using h

theorem aggregateAll_NumErrs (records : List RequesterStats) :
    (aggregateAll records).aggStats.NumErrs
      = wrap64 (records.map (fun r => r.NumErrs)).sum := by
  have h := foldl_wrapped_total (fun r => r.NumErrs) (fun st => st.aggStats.NumErrs)
    recvStats_NumErrs records AggState.init (by decide)
  simpa [aggregateAll, AggState.init, RequesterStats.zeroValue] using h

theorem aggregateAll_TotRespSize (records : List RequesterStats) :
    (aggregateAll records).aggStats.TotRespSize
      = wrap64 (records.map (fun r => r.TotRespSize)).sum := by
  have h := foldl_wrapped_total (fun r => r.TotRespSize) (fun st => st.aggStats.TotRespSize)
    recvStats_TotRespSize records AggState.init (by decide)
  simpa [aggregateAll, AggState.init, RequesterStats.zeroValue] using h

theorem aggregateAll_TotDuration (records : List RequesterStats) :
    (aggregateAll records).aggStats.TotDuration
      = wrap64 (records.map (fun r => r.TotDuration)).sum := by
  have h := foldl_wrapped_total (fun r => r.TotDuration) (fun st => st.aggStats.TotDuration)
    recvStats_TotDuration records AggState.init (by decide)
  simpa [aggregateAll, AggState.init, RequesterStats.zeroValue] using h

/-- C1: whatever records the aggregator receives, in whatever order, its four
totals NumRequests, NumErrs, TotRespSize and TotDuration are the sums of the
corresponding record fields in 64 bit integer arithmetic; each one is the
exact sum as soon as that sum is a 64 bit value; and a permutation of the
arrival order leaves the four totals unchanged. -/
theorem C1_totals_are_the_sums (records : List RequesterStats) :
    ((aggregateAll records).aggStats.NumRequests
        = wrap64 (records.map (fun r => r.NumRequests)).sum ∧
      (aggregateAll records).aggStats.NumErrs
        = wrap64 (records.map (fun r => r.NumErrs)).sum ∧
      (aggregateAll records).aggStats.TotRespSize
        = wrap64 (records.map (fun r => r.TotRespSize)).sum ∧
      (aggregateAll records).aggStats.TotDuration
        = wrap64 (records.map (fun r => r.TotDuration)).sum) ∧
    ((inInt64 (records.map (fun r => r.NumRequests)).sum →
        (aggregateAll records).aggStats.NumRequests
          = (records.map (fun r => r.NumRequests)).sum) ∧
      (inInt64 (records.map (fun r => r.NumErrs)).sum →
        (aggregateAll records).aggStats.NumErrs = (records.map (fun r => r.NumErrs)).sum) ∧
      (inInt64 (records.map (fun r => r.TotRespSize)).sum →
        (aggregateAll records).aggStats.TotRespSize
          = (records.map (fun r => r.TotRespSize)).sum) ∧
      (inInt64 (records.map (fun r => r.TotDuration)).sum →
        (aggregateAll records).aggStats.TotDuration
          = (records.map (fun r => r.TotDuration)).sum)) ∧
    (∀ arrival : List RequesterStats, arrival.Perm records →
      (aggregateAll arrival).aggStats.NumRequests = (aggregateAll records).aggStats.NumRequests ∧
      (aggregateAll arrival).aggStats.NumErrs = (aggregateAll records).aggStats.NumErrs ∧
      (aggregateAll arrival).aggStats.TotRespSize = (aggregateAll records).aggStats.TotRespSize ∧
      (aggregateAll arrival).aggStats.TotDuration
        = (aggregateAll records).aggStats.TotDuration) := by
  refine ⟨⟨aggregateAll_NumRequests _, aggregateAll_NumErrs _, aggregateAll_TotRespSize _,
    aggregateAll_TotDuration _⟩, ⟨?_, ?_, ?_, ?_⟩, ?_⟩
  · intro h
    rw [aggregateAll_NumRequests, wrap64_of_inInt64 h]
  · intro h
    rw [aggregateAll_NumErrs, wrap64_of_inInt64 h]
  · intro h
    rw [aggregateAll_TotRespSize, wrap64_of_inInt64 h]
  · intro h
    rw [aggregateAll_TotDuration, wrap64_of_inInt64 h]
  · intro arrival hperm
    simp only [aggregateAll_NumRequests, aggregateAll_NumErrs, aggregateAll_TotRespSize,
      aggregateAll_TotDuration]
    exact ⟨by rw [(hperm.map _).sum_eq], by rw [(hperm.map _).sum_eq],
      by rw [(hperm.map _).sum_eq], by rw [(hperm.map _).sum_eq]⟩

/-- C1, at two records: the totals of requests is the exact sum 3 + 4. -/
theorem C1_totals_are_the_sums_witness :
    (aggregateAll [{ RequesterStats.zeroValue with NumRequests := 3 },
      { RequesterStats.zeroValue with NumRequests := 4 }]).aggStats.NumRequests = 7 :=
  (C1_totals_are_the_sums [{ RequesterStats.zeroValue with NumRequests := 3 },
      { RequesterStats.zeroValue with NumRequests := 4 }]).2.1.1 (by decide)

/-! ## The latency extremes -/

theorem foldl_MaxRequestTime_ge_start (records : List RequesterStats) (st : AggState) :
    st.aggStats.MaxRequestTime ≤ (records.foldl recvStats st).aggStats.MaxRequestTime := by
  induction records generalizing st with
  | nil => simp
  | cons r rs ih =>
    simp only [List.foldl_cons]
    refine le_trans ?_ (ih (recvStats st r))
    rw [recvStats_MaxRequestTime]
    unfold MaxDuration
    split <;> omega

theorem foldl_MaxRequestTime_ge_mem (records : List RequesterStats) (st : AggState)
    (r : RequesterStats) (hr : r ∈ records) :
    r.MaxRequestTime ≤ (records.foldl recvStats st).aggStats.MaxRequestTime := by
  induction records generalizing st with
  | nil => simp at hr
  | cons r0 rs ih =>
    simp only [List.foldl_cons]
    rcases List.mem_cons.mp hr with h | h
    · subst h
      refine le_trans ?_ (foldl_MaxRequestTime_ge_start rs (recvStats st r))
      rw [recvStats_MaxRequestTime]
      unfold MaxDuration
      split <;> omega
    · exact ih (recvStats st r0) h

theorem foldl_MaxRequestTime_attained (records : List RequesterStats) (st : AggState) :
    (records.foldl recvStats st).aggStats.MaxRequestTime = st.aggStats.MaxRequestTime ∨
      ∃ r ∈ records, (records.foldl recvStats st).aggStats.MaxRequestTime = r.MaxRequestTime := by
  induction records generalizing st with
  | nil => simp
  | cons r0 rs ih =>
    simp only [List.foldl_cons]
    rcases ih (recvStats st r0) with h | ⟨r, hr, h⟩
    · rw [h, recvStats_MaxRequestTime]
      unfold MaxDuration
      split
      · exact Or.inl rfl
      · exact Or.inr ⟨r0, List.mem_cons_self _ _, rfl⟩
    · exact Or.inr ⟨r, List.mem_cons_of_mem _ hr, h⟩

theorem foldl_MinRequestTime_le_start (records : List RequesterStats) (st : AggState) :
    (records.foldl recvStats st).aggStats.MinRequestTime ≤ st.aggStats.MinRequestTime := by
  induction records generalizing st with
  | nil => simp
  | cons r rs ih =>
    simp only [List.foldl_cons]
    refine le_trans (ih (recvStats st r)) ?_
    rw [recvStats_MinRequestTime]
    unfold MinDuration
    split <;> omega

theorem foldl_MinRequestTime_le_mem (records : List RequesterStats) (st : AggState)
    (r : RequesterStats) (hr : r ∈ records) :
    (records.foldl recvStats st).aggStats.MinRequestTime ≤ r.MinRequestTime := by
  induction records generalizing st with
  | nil => simp at hr
  | cons r0 rs ih =>
    simp only [List.foldl_cons]
    rcases List.mem_cons.mp hr with h | h
    · subst h
      refine le_trans (foldl_MinRequestTime_le_start rs (recvStats st r)) ?_
      rw [recvStats_MinRequestTime]
      unfold MinDuration
      split <;> omega
    · exact ih (recvStats st r0) h

theorem foldl_MinRequestTime_attained (records : List RequesterStats) (st : AggState) :
    (records.foldl recvStats st).aggStats.MinRequestTime = st.aggStats.MinRequestTime ∨
      ∃ r ∈ records, (records.foldl recvStats st).aggStats.MinRequestTime = r.MinRequestTime := by
  induction records generalizing st with
  | nil => simp
  | cons r0 rs ih =>
    simp only [List.foldl_cons]
    rcases ih (recvStats st r0) with h | ⟨r, hr, h⟩
    · rw [h, recvStats_MinRequestTime]
      unfold MinDuration
      split
      · exact Or.inl rfl
      · exact Or.inr ⟨r0, List.mem_cons_self _ _, rfl⟩
    · exact Or.inr ⟨r, List.mem_cons_of_mem _ hr, h⟩

/-- The aggregated maximum of non-negative maxima is one of them and bounds them all. -/
theorem aggregateAll_max (records : List RequesterStats) (hne : records ≠ [])
    (hpos : ∀ r ∈ records, 0 ≤ r.MaxRequestTime) :
    (∃ r ∈ records, (aggregateAll records).aggStats.MaxRequestTime = r.MaxRequestTime) ∧
      ∀ r ∈ records, r.MaxRequestTime ≤ (aggregateAll records).aggStats.MaxRequestTime := by
  have hub := foldl_MaxRequestTime_ge_mem records AggState.init
  refine ⟨?_, hub⟩
  rcases foldl_MaxRequestTime_attained records AggState.init with h | h
  · obtain ⟨r, hr⟩ := List.exists_mem_of_ne_nil records hne
    refine ⟨r, hr, ?_⟩
    have h1 := hub r hr
    have h2 := hpos r hr
    have h0 : AggState.init.aggStats.MaxRequestTime = 0 := rfl
    unfold aggregateAll
    omega
  · exact h

/-- The aggregated minimum is the smaller of one minute and the record minima. -/
theorem aggregateAll_min (records : List RequesterStats) :
    (∀ r ∈ records, (aggregateAll records).aggStats.MinRequestTime ≤ r.MinRequestTime) ∧
      (aggregateAll records).aggStats.MinRequestTime ≤ Minute ∧
      ((aggregateAll records).aggStats.MinRequestTime = Minute ∨
        ∃ r ∈ records, (aggregateAll records).aggStats.MinRequestTime = r.MinRequestTime) :=
  ⟨foldl_MinRequestTime_le_mem records AggState.init,
   foldl_MinRequestTime_le_start records AggState.init,
   foldl_MinRequestTime_attained records AggState.init⟩

theorem aggregateAll_min_perm (records arrival : List RequesterStats)
    (hperm : arrival.Perm records) :
    (aggregateAll arrival).aggStats.MinRequestTime
      = (aggregateAll records).aggStats.MinRequestTime := by
  obtain ⟨a1, a2, a3⟩ := aggregateAll_min arrival
  obtain ⟨b1, b2, b3⟩ := aggregateAll_min records
  apply le_antisymm
  · rcases b3 with h | ⟨r, hr, h⟩
    · rw [h]; exact a2
    · rw [h]; exact a1 r (hperm.mem_iff.mpr hr)
  · rcases a3 with h | ⟨r, hr, h⟩
    · rw [h]; exact b2
    · rw [h]; exact b1 r (hperm.mem_iff.mp hr)

theorem aggregateAll_max_perm (records arrival : List RequesterStats)
    (hperm : arrival.Perm records) :
    (aggregateAll arrival).aggStats.MaxRequestTime
      = (aggregateAll records).aggStats.MaxRequestTime := by
  have a1 := foldl_MaxRequestTime_ge_mem arrival AggState.init
  have a2 := foldl_MaxRequestTime_ge_start arrival AggState.init
  have a3 := foldl_MaxRequestTime_attained arrival AggState.init
  have b1 := foldl_MaxRequestTime_ge_mem records AggState.init
  have b2 := foldl_MaxRequestTime_ge_start records AggState.init
  have b3 := foldl_MaxRequestTime_attained records AggState.init
  unfold aggregateAll
  apply le_antisymm
  · rcases a3 with h | ⟨r, hr, h⟩
    · rw [h]; exact b2
    · rw [h]; exact b1 r (hperm.mem_iff.mp hr)
  · rcases b3 with h | ⟨r, hr, h⟩
    · rw [h]; exact a2
    · rw [h]; exact a1 r (hperm.mem_iff.mpr hr)

/-- C2, as stated, fails: for a single record whose fastest request took two
minutes the aggregate MinRequestTime is one minute, not the two minutes that
are the minimum of the records. -/
theorem C2_min_above_one_minute_counterexample :
    0 ≤ ({ RequesterStats.zeroValue with
            MinRequestTime := 120000000000, MaxRequestTime := 120000000000 }).MinRequestTime ∧
    (aggregateAll [{ RequesterStats.zeroValue with
        MinRequestTime := 120000000000, MaxRequestTime := 120000000000 }]).aggStats.MinRequestTime
      = 60000000000 ∧
    (aggregateAll [{ RequesterStats.zeroValue with
        MinRequestTime := 120000000000, MaxRequestTime := 120000000000 }]).aggStats.MinRequestTime
      ≠ ({ RequesterStats.zeroValue with
            MinRequestTime := 120000000000, MaxRequestTime := 120000000000 }).MinRequestTime := by
  decide

/-- C2, amended: for a non-empty sequence of records with non-negative
extremes, in any arrival order, the aggregate MaxRequestTime is the maximum
of the record maxima, and the aggregate MinRequestTime is the smaller of one
minute and the minimum of the record minima; it is the minimum of the record
minima as soon as one record has a minimum of at most one minute. -/
theorem C2_extremes_from_one_minute (records : List RequesterStats) (hne : records ≠ [])
    (hpos : ∀ r ∈ records, 0 ≤ r.MinRequestTime ∧ 0 ≤ r.MaxRequestTime) :
    ((∃ r ∈ records, (aggregateAll records).aggStats.MaxRequestTime = r.MaxRequestTime) ∧
      ∀ r ∈ records, r.MaxRequestTime ≤ (aggregateAll records).aggStats.MaxRequestTime) ∧
    ((∀ r ∈ records, (aggregateAll records).aggStats.MinRequestTime ≤ r.MinRequestTime) ∧
      (aggregateAll records).aggStats.MinRequestTime ≤ Minute ∧
      ((aggregateAll records).aggStats.MinRequestTime = Minute ∨
        ∃ r ∈ records, (aggregateAll records).aggStats.MinRequestTime = r.MinRequestTime)) ∧
    ((∃ r ∈ records, r.MinRequestTime ≤ Minute) →
      ∃ r ∈ records, (aggregateAll records).aggStats.MinRequestTime = r.MinRequestTime) ∧
    (∀ arrival : List RequesterStats, arrival.Perm records →
      (aggregateAll arrival).aggStats.MinRequestTime
          = (aggregateAll records).aggStats.MinRequestTime ∧
        (aggregateAll arrival).aggStats.MaxRequestTime
          = (aggregateAll records).aggStats.MaxRequestTime) := by
  refine ⟨aggregateAll_max records hne (fun r hr => (hpos r hr).2), aggregateAll_min records,
    ?_, fun arrival hperm =>
      ⟨aggregateAll_min_perm records arrival hperm, aggregateAll_max_perm records arrival hperm⟩⟩
  rintro ⟨r, hr, hle⟩
  obtain ⟨b1, _, b3⟩ := aggregateAll_min records
  rcases b3 with h | h
  · exact ⟨r, hr, le_antisymm (b1 r hr) (by rw [h]; exact hle)⟩
  · exact h

/-- C2, amended, at two records with minima 5 ms and 7 ms: the aggregate
minimum is at most one minute. -/
theorem C2_extremes_from_one_minute_witness :
    (aggregateAll
      [{ RequesterStats.zeroValue with MinRequestTime := 5000000, MaxRequestTime := 9000000 },
       { RequesterStats.zeroValue with MinRequestTime := 7000000, MaxRequestTime := 8000000 }]
      ).aggStats.MinRequestTime ≤ Minute :=
  (C2_extremes_from_one_minute
    [{ RequesterStats.zeroValue with MinRequestTime := 5000000, MaxRequestTime := 9000000 },
     { RequesterStats.zeroValue with MinRequestTime := 7000000, MaxRequestTime := 8000000 }]
    (by decide) (by decide)).2.1.2.1

/-! ## The rate accumulator -/

theorem string_length_eq_zero_iff (s : String) : s.length = 0 ↔ s = "" := by
  cases s with
  | mk l =>
    constructor
    · intro h
      have hl : l = [] := List.length_eq_zero.mp h
      subst hl
      rfl
    · intro h
      rw [h]
      rfl

theorem failedUrlBranch_iff (stats : RequesterStats) :
    failedUrlBranch stats = true ↔ (0 < stats.NumErrs ∧ stats.ErrUrl ≠ "") := by
  unfold failedUrlBranch
  have h : 0 < stats.ErrUrl.length ↔ stats.ErrUrl ≠ "" := by
    rw [Nat.pos_iff_ne_zero, ne_eq, ne_eq, string_length_eq_zero_iff]
  simp [h]

theorem recvStats_TotReqPerSec (st : AggState) (stats : RequesterStats) :
    (recvStats st stats).aggStats.TotReqPerSec
      = if failedUrlBranch stats then st.aggStats.TotReqPerSec
        else F64.add st.aggStats.TotReqPerSec (F64.div F64.one (F64.seconds stats.TotDuration)) := by
  unfold recvStats
  split <;> rfl

theorem foldl_TotReqPerSec (records : List RequesterStats) (st : AggState) :
    (records.foldl recvStats st).aggStats.TotReqPerSec
      = ((records.filter (fun r => decide (¬ (0 < r.NumErrs ∧ r.ErrUrl ≠ "")))).map
          (fun r => F64.div F64.one (F64.seconds r.TotDuration))).foldl
          F64.add st.aggStats.TotReqPerSec := by
  induction records generalizing st with
  | nil => rfl
  | cons r rs ih =>
    simp only [List.foldl_cons]
    rw [ih (recvStats st r), recvStats_TotReqPerSec]
    by_cases hb : failedUrlBranch r = true
    · have hc := (failedUrlBranch_iff r).mp hb
      simp [hb, List.filter_cons, hc]
    · have hc : ¬ (0 < r.NumErrs ∧ r.ErrUrl ≠ "") := fun h => hb ((failedUrlBranch_iff r).mpr h)
      have hb2 : failedUrlBranch r = false := by simpa using hb
      rw [List.filter_cons]
      simp only [hb2, decide_eq_true hc]
      simp

/-- C6: the rate accumulator TotReqPerSec is the sum, taken in arrival order
from zero, of 1 / TotDuration.Seconds() over exactly the records that do not
have both NumErrs > 0 and a non-empty ErrUrl; and whenever a report is printed
its Avg Reqs/sec figure is that accumulator divided by the aggregate
NumRequests. -/
theorem C6_rate_accumulator (records : List RequesterStats) :
    (aggregateAll records).aggStats.TotReqPerSec
      = ((records.filter (fun r => decide (¬ (0 < r.NumErrs ∧ r.ErrUrl ≠ "")))).map
          (fun r => F64.div F64.one (F64.seconds r.TotDuration))).foldl F64.add F64.zero ∧
    ∀ totalDuration : Int, (aggregateAll records).aggStats.NumRequests ≠ 0 →
      (report (aggregateAll records).aggStats totalDuration).avgReqsPerSec
        = some (F64.div (aggregateAll records).aggStats.TotReqPerSec
            (F64.ofInt (aggregateAll records).aggStats.NumRequests)) := by
  refine ⟨foldl_TotReqPerSec records AggState.init, ?_⟩
  intro totalDuration hne
  unfold report
  have h : ((aggregateAll records).aggStats.NumRequests == 0) = false := by simpa using hne
  simp only [h]
  rfl

/-- C6, at a record without error and a record with a failed URL: the printed
average is (0 + 1 / 1s) / 7. -/
theorem C6_rate_accumulator_witness :
    (report (aggregateAll [busyRecord, failedRecord]).aggStats 2000000000).avgReqsPerSec
      = some (F64.div (F64.add F64.zero (F64.div F64.one (F64.seconds 1000000000)))
          (F64.ofInt 7)) :=
  ((C6_rate_accumulator [busyRecord, failedRecord]).2 2000000000 (by decide)).trans (by decide)

theorem recvStats_keeps_zeroDiv (st : AggState) (stats : RequesterStats)
    (h : st.aggStats.TotReqPerSec.hasZeroDiv = true) :
    (recvStats st stats).aggStats.TotReqPerSec.hasZeroDiv = true := by
  rw [recvStats_TotReqPerSec]
  split
  · exact h
  · simp [F64.hasZeroDiv, h]

theorem foldl_keeps_zeroDiv (records : List RequesterStats) (st : AggState)
    (h : st.aggStats.TotReqPerSec.hasZeroDiv = true) :
    (records.foldl recvStats st).aggStats.TotReqPerSec.hasZeroDiv = true := by
  induction records generalizing st with
  | nil => exact h
  | cons r rs ih => exact ih (recvStats st r) (recvStats_keeps_zeroDiv st r h)

theorem foldl_zeroDiv_of_mem (records : List RequesterStats) (st : AggState)
    (h : ∃ r ∈ records, failedUrlBranch r = false ∧ r.TotDuration = 0) :
    (records.foldl recvStats st).aggStats.TotReqPerSec.hasZeroDiv = true := by
  induction records generalizing st with
  | nil => simp at h
  | cons r0 rs ih =>
    simp only [List.foldl_cons]
    obtain ⟨r, hr, hbranch, hzero⟩ := h
    rcases List.mem_cons.mp hr with e | e
    · subst e
      apply foldl_keeps_zeroDiv
      rw [recvStats_TotReqPerSec, hbranch, hzero]
      simp [F64.hasZeroDiv, F64.isZero]
    · exact ih (recvStats st r0) ⟨r, e, hbranch, hzero⟩

/-- C9: whenever one of the received records has a zero total duration and
does not take the failed URL branch (a worker with zero requests, zero errors
and zero duration is such a record), the rate branch evaluates
1 / TotDuration.Seconds() with the divisor zero, and if the aggregate
NumRequests is not 0 the report is printed with an Avg Reqs/sec figure that
contains that division. -/
theorem C9_zero_duration_record_divides_by_zero (records : List RequesterStats)
    (totalDuration : Int)
    (hidle : ∃ r ∈ records, failedUrlBranch r = false ∧ r.TotDuration = 0)
    (hreq : (aggregateAll records).aggStats.NumRequests ≠ 0) :
    (aggregateAll records).aggStats.TotReqPerSec.hasZeroDiv = true ∧
    ∃ avg : F64, (report (aggregateAll records).aggStats totalDuration).avgReqsPerSec = some avg ∧
      avg.hasZeroDiv = true := by
  have hacc := foldl_zeroDiv_of_mem records AggState.init hidle
  refine ⟨hacc, F64.div (aggregateAll records).aggStats.TotReqPerSec
    (F64.ofInt (aggregateAll records).aggStats.NumRequests), ?_, ?_⟩
  · unfold report
    have h : ((aggregateAll records).aggStats.NumRequests == 0) = false := by simpa using hreq
    simp only [h]
    rfl
  · have hacc2 : (aggregateAll records).aggStats.TotReqPerSec.hasZeroDiv = true := hacc
    simp [F64.hasZeroDiv, hacc2]

/-- C9, at a record of five completed requests followed by the record of an
idle worker: the accumulator contains a division by zero. -/
theorem C9_zero_duration_record_divides_by_zero_witness :
    (aggregateAll [busyRecord, idleRecord]).aggStats.TotReqPerSec.hasZeroDiv = true :=
  (C9_zero_duration_record_divides_by_zero [busyRecord, idleRecord] 2000000000
    ⟨idleRecord, by simp, by decide, by decide⟩ (by decide)).1

/-- The figures at that input: the idle record reaches the rate branch with
the duration 0, the aggregate NumRequests is 5, and the printed average is
(0 + 1 / 1s + 1 / 0s) / 5. -/
theorem idleRecord_average_evaluated :
    failedUrlBranch idleRecord = false ∧ idleRecord.TotDuration = 0 ∧
    (aggregateAll [busyRecord, idleRecord]).aggStats.NumRequests = 5 ∧
    (report (aggregateAll [busyRecord, idleRecord]).aggStats 2000000000).avgReqsPerSec
      = some (F64.div
          (F64.add (F64.add F64.zero (F64.div F64.one (F64.seconds 1000000000)))
            (F64.div F64.one (F64.seconds 0)))
          (F64.ofInt 5)) := by
  decide

/-! ## The URL supplier -/

theorem scanLoop_eq (baseUrl : String) (lines pushed : List String) :
    scanLoop baseUrl lines pushed = pushed ++ lines.map (fun line => baseUrl ++ line) := by
  induction lines generalizing pushed with
  | nil => simp [scanLoop]
  | cons l ls ih => simp [scanLoop, ih]

/-- The entries of `n` passes over the lines. -/
theorem supplierLoop_eq (fs : FileSystem) (urlFile baseUrl : String) (lines : List String)
    (hopen : osOpen fs urlFile = Except.ok { lines := lines, scanErr := none })
    (n : Nat) (pushed : List String) :
    supplierLoop fs urlFile baseUrl n pushed
      = (SupplierExit.closedQueue,
          pushed ++ (List.replicate n (lines.map (fun line => baseUrl ++ line))).flatten) := by
  induction n generalizing pushed with
  | zero => simp [supplierLoop]
  | succ n ih =>
    rw [supplierLoop, hopen]
    simp only
    rw [ih, scanLoop_eq]
    simp [List.replicate_succ, List.append_assoc]

theorem join_replicate_length (n : Nat) (block : List String) :
    (List.replicate n block).flatten.length = n * block.length := by
  induction n with
  | zero => simp
  | succ n ih => simp [List.replicate_succ, ih, Nat.succ_mul, Nat.add_comm]

theorem join_replicate_get (block : List String) (n p i : Nat) (hp : p < n)
    (hi : i < block.length) :
    (List.replicate n block).flatten.get? (p * block.length + i) = block.get? i := by
  induction n generalizing p with
  | zero => omega
  | succ n ih =>
    simp only [List.replicate_succ, List.flatten_cons, List.get?_eq_getElem?]
    cases p with
    | zero =>
      simp only [Nat.zero_mul, Nat.zero_add]
      rw [List.getElem?_append_left hi]
    | succ p =>
      have hge : block.length ≤ (p + 1) * block.length + i := by
        rw [Nat.succ_mul]; omega
      rw [List.getElem?_append_right hge]
      have hidx : (p + 1) * block.length + i - block.length = p * block.length + i := by
        rw [Nat.succ_mul]; omega
      rw [hidx]
      have := ih p (by omega)
      simpa [List.get?_eq_getElem?] using this

theorem urlSequence_length (baseUrl : String) (lines : List String) (R : Nat) :
    (urlSequence baseUrl lines R).length = R * lines.length := by
  simp [urlSequence, join_replicate_length]

theorem urlSequence_get (baseUrl : String) (lines : List String) (R p i : Nat) (hp : p < R)
    (hi : i < lines.length) :
    (urlSequence baseUrl lines R).get? (p * lines.length + i)
      = some (baseUrl ++ lines.get ⟨i, hi⟩) := by
  have h := join_replicate_get (lines.map (fun line => baseUrl ++ line)) R p i hp
    (by simpa using hi)
  simp only [List.length_map] at h
  unfold urlSequence
  rw [h]
  simp [List.get?_eq_getElem?, List.getElem?_map, List.getElem?_eq_getElem hi]

/-- The supplier left alone on a file that opens and scans without error sends
the whole sequence and ends by its deferred close. -/
theorem supplier_eq (fs : FileSystem) (urlFile baseUrl : String) (lines : List String) (R : Nat)
    (hopen : osOpen fs urlFile = Except.ok { lines := lines, scanErr := none }) :
    supplier fs urlFile baseUrl (R : Int)
      = (SupplierExit.closedQueue, urlSequence baseUrl lines R) := by
  unfold supplier urlSequence
  rw [Int.toNat_ofNat, supplierLoop_eq fs urlFile baseUrl lines hopen]
  simp

theorem supInv_start (statsCap : Nat) (workers : List RequesterStats)
    (sup : SupplierExit × List String) (totalDuration : Int) :
    SupInv sup.2 (Sys.start statsCap workers sup totalDuration) := by
  simp [SupInv, Sys.start]

theorem supInv_stepMain (full : List String) (s : Sys) (h : SupInv full s) :
    SupInv full (stepMain s) := by
  unfold stepMain
  split
  · split
    · exact h
    · exact h
  · split
    · exact h
    · exact h
  · exact h
  · exact h
  · exact h

theorem supInv_stepAggregator (full : List String) (takeSignal : Bool) (s : Sys)
    (h : SupInv full s) : SupInv full (stepAggregator takeSignal s) := by
  obtain ⟨h1, h2, h3, h4, h5, h6⟩ := h
  unfold stepAggregator
  split
  · split
    · split
      · exact ⟨h1, h2, h3, h4, fun _ => Or.inl rfl, fun _ => rfl⟩
      · exact ⟨h1, h2, h3, h4, h5, h6⟩
    · split
      · exact ⟨h1, h2, h3, h4, h5, h6⟩
      · split
        · refine ⟨h1, h2, h3, h4, h5, ?_⟩
          simp
        · exact ⟨h1, h2, h3, h4, h5, h6⟩
  · refine ⟨h1, h2, h3, h4, h5, fun _ => h6 (Or.inl ?_)⟩
    assumption
  · split
    · exact ⟨h1, h2, h3, h4, h5, h6⟩
    · rename_i hpc hclosed
      have hsig : s.sigTaken = true := h6 (Or.inr hpc)
      refine ⟨h1, h2, h3, ?_, fun _ => Or.inl hsig, fun _ => hsig⟩
      intro hd
      exact ⟨(h4 hd).1, rfl⟩
  · split
    · exact ⟨h1, h2, h3, h4, h5, h6⟩
    · refine ⟨h1, h2, h3, h4, h5, ?_⟩
      simp
  · split
    · refine ⟨h1, h2, h3, h4, h5, ?_⟩
      simp
    · exact ⟨h1, h2, h3, h4, h5, h6⟩
  · refine ⟨h1, h2, h3, h4, h5, ?_⟩
    simp
  · split
    · refine ⟨h1, h2, h3, h4, h5, ?_⟩
      simp
    · exact ⟨h1, h2, h3, h4, h5, h6⟩
  · exact ⟨h1, h2, h3, h4, h5, h6⟩

theorem supInv_stepSupplier (full : List String) (s : Sys) (h : SupInv full s) :
    SupInv full (stepSupplier s) := by
  obtain ⟨h1, ⟨taken, h2⟩, h3, h4, h5, h6⟩ := h
  unfold stepSupplier
  split
  · exact ⟨h1, ⟨taken, h2⟩, h3, h4, h5, h6⟩
  · rename_i hdone
    split
    · rename_i fp rest hpending
      split
      · exact ⟨h1, ⟨taken, h2⟩, h3, h4, h5, h6⟩
      · rename_i hclosed
        split
        · rename_i hroom
          refine ⟨?_, ⟨taken, ?_⟩, ?_, ?_, ?_, h6⟩
          · rw [hpending] at h1
            simpa using h1
          · simp [h2]
          · simp only [List.length_append, List.length_singleton]
            omega
          · intro hd
            exact absurd hd hdone
          · intro hc
            exact absurd hc hclosed
        · exact ⟨h1, ⟨taken, h2⟩, h3, h4, h5, h6⟩
    · rename_i hpending
      split
      · split
        · exact ⟨h1, ⟨taken, h2⟩, h3, h4, h5, h6⟩
        · exact ⟨h1, ⟨taken, h2⟩, h3, fun _ => ⟨hpending, rfl⟩, fun _ => Or.inr rfl, h6⟩
      · exact ⟨h1, ⟨taken, h2⟩, h3, h4, h5, h6⟩
      · exact ⟨h1, ⟨taken, h2⟩, h3, h4, h5, h6⟩

theorem supInv_stepWorker (full : List String) (a : Action) (s : Sys) (h : SupInv full s) :
    SupInv full (stepWorker a s) := by
  unfold stepWorker
  split
  · obtain ⟨h1, ⟨taken, h2⟩, h3, h4, h5, h6⟩ := h
    refine ⟨h1, ?_, ?_, h4, h5, h6⟩
    · cases hb : s.fileQueue.buf with
      | nil => exact ⟨s.supSent, by simp⟩
      | cons x xs => exact ⟨taken ++ [x], by simp [h2, hb]⟩
    · have := List.length_tail s.fileQueue.buf
      simp only [this]
      omega
  · split
    · exact h
    · split
      · exact h
      · split
        · exact h
        · exact h
  · split
    · exact h
    · exact h
  · exact h

theorem supInv_step (full : List String) (s : Sys) (a : Action) (h : SupInv full s) :
    SupInv full (step s a) := by
  unfold step
  split
  · exact h
  · cases a with
    | signal => exact h
    | main => exact supInv_stepMain full s h
    | aggregator takeSignal => exact supInv_stepAggregator full takeSignal s h
    | supplier => exact supInv_stepSupplier full s h
    | workerRecv => exact supInv_stepWorker full Action.workerRecv s h
    | workerExit => exact supInv_stepWorker full Action.workerExit s h
    | workerDone => exact supInv_stepWorker full Action.workerDone s h

theorem supInv_run (full : List String) (sched : List Action) (s : Sys) (h : SupInv full s) :
    SupInv full (run sched s) := by
  unfold run
  induction sched generalizing s with
  | nil => exact h
  | cons a rest ih => exact ih (step s a) (supInv_step full s a h)

theorem fileQueue_cap_step (s : Sys) (a : Action) :
    (step s a).fileQueue.cap = s.fileQueue.cap := by
  unfold step
  split
  · rfl
  · cases a <;> simp only [stepMain, stepAggregator, stepSupplier, stepWorker] <;>
      (repeat' split) <;> rfl

theorem fileQueue_cap_run (sched : List Action) (s : Sys) :
    (run sched s).fileQueue.cap = s.fileQueue.cap := by
  unfold run
  induction sched generalizing s with
  | nil => rfl
  | cons a rest ih =>
    simp only [List.foldl_cons]
    rw [ih (step s a), fileQueue_cap_step]

/-- One entry sent and taken leaves the supplier and the workers as free to
go on as before. -/
theorem drain_pair (s : Sys) (fp : String) (rest : List String) (h : DrainReady s)
    (hp : s.supPending = fp :: rest) :
    DrainReady (step (step s Action.supplier) Action.workerRecv) ∧
    (step (step s Action.supplier) Action.workerRecv).supPending = rest ∧
    (step (step s Action.supplier) Action.workerRecv).supSent = s.supSent ++ [fp] := by
  obtain ⟨hc, he, hm, hd, hx, hcl, hb, hcap, hsig⟩ := h
  have e1 : step s Action.supplier
      = { s with fileQueue := { s.fileQueue with buf := s.fileQueue.buf ++ [fp] },
                 supPending := rest, supSent := s.supSent ++ [fp] } := by
    simp [step, stepSupplier, hc, he, hm, hd, hp, hcl, hb, hcap]
  rw [e1]
  simp [step, stepWorker, DrainReady, hc, he, hm, hd, hx, hcl, hb, hcap, hsig]

theorem drain_last (s : Sys) (h : DrainReady s) (hp : s.supPending = []) :
    (step s Action.supplier).supDone = true ∧
    (step s Action.supplier).fileQueue.closed = true ∧
    (step s Action.supplier).supSent = s.supSent ∧
    (step s Action.supplier).sigTaken = false := by
  obtain ⟨hc, he, hm, hd, hx, hcl, hb, hcap, hsig⟩ := h
  simp [step, stepSupplier, hc, he, hm, hd, hx, hp, hcl, hsig]

/-- With a worker taking every entry as it comes, the supplier sends all its
pending entries and runs its deferred close. -/
theorem drain_run (n : Nat) (s : Sys) (h : DrainReady s) (hn : s.supPending.length = n) :
    (run (drainSchedule n) s).supDone = true ∧
    (run (drainSchedule n) s).fileQueue.closed = true ∧
    (run (drainSchedule n) s).supSent = s.supSent ++ s.supPending ∧
    (run (drainSchedule n) s).sigTaken = false := by
  induction n generalizing s with
  | zero =>
    have hp : s.supPending = [] := List.length_eq_zero.mp hn
    have hl := drain_last s h hp
    simpa [run, drainSchedule, hp] using hl
  | succ n ih =>
    obtain ⟨fp, rest, hp⟩ : ∃ fp rest, s.supPending = fp :: rest := by
      cases hpend : s.supPending with
      | nil => rw [hpend] at hn; simp at hn
      | cons fp rest => exact ⟨fp, rest, rfl⟩
    obtain ⟨hready, hpend, hsent⟩ := drain_pair s fp rest h hp
    have hlen : (step (step s Action.supplier) Action.workerRecv).supPending.length = n := by
      rw [hpend]
      rw [hp] at hn
      simpa using hn
    have hrec := ih (step (step s Action.supplier) Action.workerRecv) hready hlen
    have hrun : run (drainSchedule (n + 1)) s
        = run (drainSchedule n) (step (step s Action.supplier) Action.workerRecv) := by
      simp [run, drainSchedule]
    rw [hrun]
    refine ⟨hrec.1, hrec.2.1, ?_, hrec.2.2.2⟩
    rw [hrec.2.2.1, hsent, hpend, hp]
    simp

theorem signal_not_mem_drainSchedule (n : Nat) : Action.signal ∉ drainSchedule n := by
  induction n with
  | zero => simp [drainSchedule]
  | succ n ih => simp [drainSchedule, ih]

/-- C3, as stated, fails: on the three line file with one pass and no signal,
the supplier fills the URL queue of capacity two, both workers leave at the
end of their duration, and `main` reports and returns with two of the three
entries sent and the queue never closed. -/
theorem C3_duration_expiry_counterexample :
    osOpen sampleFs "objects.txt" = Except.ok { lines := ["a", "b", "c"], scanErr := none } ∧
    Action.signal ∉ durationExpirySchedule ∧
    (supplierRun sampleFs "objects.txt" "http://h/" 1 10 [idleRecord, idleRecord] 2000000000
      durationExpirySchedule).stoppedCleanly ∧
    (supplierRun sampleFs "objects.txt" "http://h/" 1 10 [idleRecord, idleRecord] 2000000000
      durationExpirySchedule).supSent = ["http://h/a", "http://h/b"] ∧
    (supplierRun sampleFs "objects.txt" "http://h/" 1 10 [idleRecord, idleRecord] 2000000000
      durationExpirySchedule).fileQueue.closed = false ∧
    (supplierRun sampleFs "objects.txt" "http://h/" 1 10 [idleRecord, idleRecord] 2000000000
      durationExpirySchedule).sigTaken = false :=
  ⟨rfl, by decide, by decide, by decide, by decide, by decide⟩

/-- C3, amended: for a list file of K lines that opens and reads without error
and a repeat count R, in every run of the process the entries sent on the URL
queue are the first entries of the sequence made of the file lines in order,
each after the base URL, repeated R times (the entry at position p * K + i,
once sent, is baseUrl followed by line i); at most R * K are sent; the queue
never holds more than its capacity; and when the queue is closed without the
signal branch, exactly R * K entries have been sent. With at least one worker
there is a run without a signal in which all R * K entries are sent and the
supplier closes the queue. -/
theorem C3_sent_entries_in_every_run (fs : FileSystem) (urlFile baseUrl : String)
    (lines : List String) (R statsCap : Nat) (workers : List RequesterStats)
    (totalDuration : Int)
    (hopen : osOpen fs urlFile = Except.ok { lines := lines, scanErr := none }) :
    (∀ sched : List Action,
      (∃ pending : List String,
        (supplierRun fs urlFile baseUrl R statsCap workers totalDuration sched).supSent ++ pending
          = urlSequence baseUrl lines R) ∧
      (∀ p i : Nat, p < R → ∀ hi : i < lines.length,
        p * lines.length + i
            < (supplierRun fs urlFile baseUrl R statsCap workers totalDuration sched).supSent.length →
          (supplierRun fs urlFile baseUrl R statsCap workers totalDuration sched).supSent.get?
              (p * lines.length + i)
            = some (baseUrl ++ lines.get ⟨i, hi⟩)) ∧
      (supplierRun fs urlFile baseUrl R statsCap workers totalDuration sched).supSent.length
        ≤ R * lines.length ∧
      (supplierRun fs urlFile baseUrl R statsCap workers totalDuration sched).fileQueue.buf.length
        ≤ workers.length ∧
      ((supplierRun fs urlFile baseUrl R statsCap workers totalDuration sched).fileQueue.closed
          = true →
        (supplierRun fs urlFile baseUrl R statsCap workers totalDuration sched).sigTaken = false →
        (supplierRun fs urlFile baseUrl R statsCap workers totalDuration sched).supSent.length
          = R * lines.length)) ∧
    (1 ≤ workers.length → ∃ sched : List Action, Action.signal ∉ sched ∧
      (supplierRun fs urlFile baseUrl R statsCap workers totalDuration sched).fileQueue.closed
        = true ∧
      (supplierRun fs urlFile baseUrl R statsCap workers totalDuration sched).sigTaken = false ∧
      (supplierRun fs urlFile baseUrl R statsCap workers totalDuration sched).supSent
        = urlSequence baseUrl lines R) := by
  have hsup := supplier_eq fs urlFile baseUrl lines R hopen
  constructor
  · intro sched
    have hinv := supInv_run _ sched _
      (supInv_start statsCap workers (supplier fs urlFile baseUrl (R : Int)) totalDuration)
    have hcap := fileQueue_cap_run sched
      (Sys.start statsCap workers (supplier fs urlFile baseUrl (R : Int)) totalDuration)
    rw [hsup] at hinv
    obtain ⟨h1, _, h3, h4, h5, _⟩ := hinv
    have h1s : (supplierRun fs urlFile baseUrl R statsCap workers totalDuration sched).supSent
        ++ (supplierRun fs urlFile baseUrl R statsCap workers totalDuration sched).supPending
        = urlSequence baseUrl lines R := by
      unfold supplierRun
      rw [hsup]
      exact h1
    have hlen := congrArg List.length h1s
    rw [List.length_append, urlSequence_length] at hlen
    refine ⟨⟨_, h1s⟩, ?_, by omega, ?_, ?_⟩
    · intro p i hp hi hidx
      have hget := urlSequence_get baseUrl lines R p i hp hi
      rw [← h1s, List.get?_eq_getElem?, List.getElem?_append_left hidx] at hget
      rw [List.get?_eq_getElem?]
      exact hget
    · unfold supplierRun
      rw [hsup]
      have hc : (Sys.start statsCap workers (SupplierExit.closedQueue, urlSequence baseUrl lines R)
          totalDuration).fileQueue.cap = workers.length := rfl
      rw [hsup] at hcap
      omega
    · intro hclosed hsig
      have hclosed2 : (run sched (Sys.start statsCap workers
          (SupplierExit.closedQueue, urlSequence baseUrl lines R) totalDuration)).fileQueue.closed
            = true := by
        unfold supplierRun at hclosed
        rw [hsup] at hclosed
        exact hclosed
      have hsig2 : (run sched (Sys.start statsCap workers
          (SupplierExit.closedQueue, urlSequence baseUrl lines R) totalDuration)).sigTaken
            = false := by
        unfold supplierRun at hsig
        rw [hsup] at hsig
        exact hsig
      rcases h5 hclosed2 with hs | hd
      · rw [hsig2] at hs
        cases hs
      · have hpend := (h4 hd).1
        have hpend2 : (supplierRun fs urlFile baseUrl R statsCap workers totalDuration
            sched).supPending = [] := by
          unfold supplierRun
          rw [hsup]
          exact hpend
        rw [hpend2] at hlen
        simpa using hlen
  · intro hworkers
    have hready : DrainReady (Sys.start statsCap workers
        (SupplierExit.closedQueue, urlSequence baseUrl lines R) totalDuration) := by
      exact ⟨rfl, rfl, rfl, rfl, rfl, rfl, rfl, hworkers, rfl⟩
    have hrun := drain_run (urlSequence baseUrl lines R).length _ hready rfl
    refine ⟨drainSchedule (urlSequence baseUrl lines R).length,
      signal_not_mem_drainSchedule _, ?_, ?_, ?_⟩
    · unfold supplierRun
      rw [hsup]
      exact hrun.2.1
    · unfold supplierRun
      rw [hsup]
      exact hrun.2.2.2
    · unfold supplierRun
      rw [hsup]
      rw [hrun.2.2.1]
      simp [Sys.start]

/-- C3, amended, at the run of `durationExpirySchedule` on the three line file
with one pass: at most 1 * 3 entries were sent. -/
theorem C3_sent_entries_in_every_run_witness :
    (supplierRun sampleFs "objects.txt" "http://h/" 1 10 [idleRecord, idleRecord] 2000000000
      durationExpirySchedule).supSent.length ≤ 1 * 3 :=
  ((C3_sent_entries_in_every_run sampleFs "objects.txt" "http://h/" ["a", "b", "c"] 1 10
    [idleRecord, idleRecord] 2000000000 rfl).1 durationExpirySchedule).2.2.1

/-- On the same file a run without a signal in which a worker takes every
entry ends with all three entries sent and the queue closed by the supplier. -/
theorem drainSchedule_sends_all :
    (supplierRun sampleFs "objects.txt" "http://h/" 1 10 [idleRecord, idleRecord] 2000000000
      (drainSchedule 3)).supSent = ["http://h/a", "http://h/b", "http://h/c"] ∧
    (supplierRun sampleFs "objects.txt" "http://h/" 1 10 [idleRecord, idleRecord] 2000000000
      (drainSchedule 3)).fileQueue.closed = true := by
  decide

/-- C5, as stated, fails: with the url-file flag left empty and one pass the
supplier ends by the fatal exit on a failed open, having sent nothing, even on
a file system where every lookup would succeed. -/
theorem C5_empty_url_file_counterexample :
    supplier permissiveFs "" "http://h/" 1
      = (SupplierExit.failedToOpen "open : no such file or directory", []) := by
  decide

/-- C5, amended: with the url-file flag left at its empty default the
supplier takes the fatal exit of a failed open on its first pass, before it
sends any entry, for every repeat count ≥ 1 and every base URL. -/
theorem C5_empty_url_file_is_fatal (fs : FileSystem) (baseUrl : String) (repeatNumb : Int)
    (hR : 1 ≤ repeatNumb) :
    supplier fs "" baseUrl repeatNumb
      = (SupplierExit.failedToOpen "open : no such file or directory", []) := by
  unfold supplier
  obtain ⟨n, hn⟩ : ∃ n, repeatNumb.toNat = n + 1 := ⟨repeatNumb.toNat - 1, by omega⟩
  rw [hn, supplierLoop]
  simp [osOpen]

/-- C5, amended, at the flag defaults: one pass over the empty path. -/
theorem C5_empty_url_file_is_fatal_witness :
    supplier sampleFs (Globals.init Globals.declared).urlFile "http://h/"
        (Globals.init Globals.declared).repeatNumb
      = (SupplierExit.failedToOpen "open : no such file or directory", []) :=
  C5_empty_url_file_is_fatal sampleFs "http://h/" 1 (by decide)

/-! ## Header parsing -/

theorem cutFirst_eq_none_iff (sep : Char) (l : List Char) :
    cutFirst sep l = none ↔ sep ∉ l := by
  induction l with
  | nil => simp [cutFirst]
  | cons c cs ih =>
    unfold cutFirst
    by_cases h : c = sep
    · simp [h]
    · have h2 : ¬ sep = c := fun e => h e.symm
      simp only [h, if_false, List.mem_cons, not_or]
      cases hc : cutFirst sep cs with
      | none => simpa [h2] using ih.mp hc
      | some ab =>
        obtain ⟨a, b⟩ := ab
        constructor
        · intro he
          cases he
        · rintro ⟨_, hn⟩
          rw [ih.mpr hn] at hc
          cases hc

/-- A flag without a colon is not split: one piece. -/
theorem SplitN_no_colon (hdr : String) (h : ':' ∉ hdr.data) : SplitN ':' 2 hdr = [hdr] := by
  unfold SplitN
  rw [(cutFirst_eq_none_iff ':' hdr.data).mpr h]

/-- A flag with a colon is split in two pieces. -/
theorem SplitN_colon (hdr : String) (h : ':' ∈ hdr.data) :
    ∃ k v : String, SplitN ':' 2 hdr = [k, v] := by
  unfold SplitN
  cases hc : cutFirst ':' hdr.data with
  | none => exact absurd h ((cutFirst_eq_none_iff ':' hdr.data).mp hc)
  | some ab =>
    obtain ⟨a, b⟩ := ab
    exact ⟨String.mk a, String.mk b, by simp [SplitN]⟩

theorem find_filter_ne (m : HeaderMap) (k k1 : String) (hk : k ≠ k1) :
    (m.filter (fun p => p.1 != k)).find? (fun p => p.1 == k1)
      = m.find? (fun p => p.1 == k1) := by
  induction m with
  | nil => rfl
  | cons x xs ih =>
    obtain ⟨a, b⟩ := x
    by_cases h2 : a = k
    · have h1 : ¬ a = k1 := fun e => hk (h2.symm.trans e)
      have hf : ((a, b).1 != k) = false := by simpa using h2
      have hg : ((a, b).1 == k1) = false := by simpa using h1
      rw [List.filter_cons, List.find?_cons]
      simp only [hf, hg]
      exact ih
    · have hf : ((a, b).1 != k) = true := by simpa using h2
      rw [List.filter_cons]
      simp only [hf, if_true]
      rw [List.find?_cons, List.find?_cons, ih]

theorem get_set (m : HeaderMap) (k v k1 : String) :
    (m.set k v).get k1 = if k = k1 then some v else m.get k1 := by
  unfold HeaderMap.get HeaderMap.set
  by_cases h : k = k1
  · simp [h]
  · simp only [h, if_false]
    rw [List.find?_cons]
    have hb : ((k, v).1 == k1) = false := by simpa using h
    simp only [hb]
    rw [find_filter_ne m k k1 h]

theorem set_keys_nodup (m : HeaderMap) (k v : String) (h : (m.map Prod.fst).Nodup) :
    ((m.set k v).map Prod.fst).Nodup := by
  unfold HeaderMap.set
  simp only [List.map_cons, List.nodup_cons]
  constructor
  · simp [List.mem_map, List.mem_filter]
  · exact (List.Nodup.sublist ((List.filter_sublist m).map Prod.fst) h)

theorem lastWritten_cons (hdr : String) (rest : List String) (k : String)
    (hcolon : ∀ h ∈ rest, ':' ∈ h.data) :
    lastWritten (hdr :: rest) k
      = match lastWritten rest k with
        | some v => some v
        | none =>
          if (SplitN ':' 2 hdr).get? 0 = some k then (SplitN ':' 2 hdr).get? 1 else none := by
  unfold lastWritten
  rw [List.reverse_cons, List.find?_append]
  cases hfind : rest.reverse.find? (fun h => (SplitN ':' 2 h).get? 0 == some k) with
  | some h =>
    have hmem : h ∈ rest := List.mem_reverse.mp (List.mem_of_find?_eq_some hfind)
    obtain ⟨k1, v1, hsplit⟩ := SplitN_colon h (hcolon h hmem)
    simp [hsplit]
  | none =>
    simp only [Option.none_or, List.find?_cons, List.find?_nil]
    by_cases hk : (SplitN ':' 2 hdr).get? 0 = some k
    · have hb : ((SplitN ':' 2 hdr).get? 0 == some k) = true := by simpa using hk
      rw [hb, if_pos hk]
    · have hb : ((SplitN ':' 2 hdr).get? 0 == some k) = false := by simpa using hk
      rw [hb, if_neg hk]

theorem parseHeaders_ok (flags : List String) (m : HeaderMap)
    (hcolon : ∀ hdr ∈ flags, ':' ∈ hdr.data) (hm : (m.map Prod.fst).Nodup) :
    ∃ header : HeaderMap, parseHeaders flags m = Except.ok header ∧
      (header.map Prod.fst).Nodup ∧
      ∀ k : String, header.get k
        = match lastWritten flags k with
          | some v => some v
          | none => m.get k := by
  induction flags generalizing m with
  | nil => exact ⟨m, rfl, hm, fun k => rfl⟩
  | cons hdr rest ih =>
    obtain ⟨k0, v0, hsplit⟩ := SplitN_colon hdr (hcolon hdr (List.mem_cons_self _ _))
    obtain ⟨header, hok, hnodup, hget⟩ := ih (m.set k0 v0)
      (fun h hh => hcolon h (List.mem_cons_of_mem _ hh)) (set_keys_nodup m k0 v0 hm)
    refine ⟨header, ?_, hnodup, ?_⟩
    · rw [parseHeaders]
      simp only [hsplit, List.get?_cons_zero, List.get?_cons_succ]
      exact hok
    · intro k
      rw [hget k, lastWritten_cons hdr rest k (fun h hh => hcolon h (List.mem_cons_of_mem _ hh)),
        hsplit, get_set]
      cases lastWritten rest k with
      | some v => rfl
      | none =>
        by_cases hk : k0 = k
        · simp [hk]
        · simp [hk]

/-- C7, as stated, fails: the flags `content-type: a` then `Content-Type: b`
leave two entries in the header map, one for each spelling of the key. -/
theorem C7_case_variants_counterexample :
    headerOfFlags ["content-type: a", "Content-Type: b"]
      = Except.ok [("Content-Type", " b"), ("content-type", " a")] := by
  rfl

/-- C7, amended: for flags that all contain a colon the header map is built
without a panic, holds at most one entry for each key, and maps a key, taken
verbatim (letter case included) as the text before the first colon, to the
text after the first colon of the last flag with exactly that key. -/
theorem C7_verbatim_keys_last_write_wins (headerFlags : List String)
    (hcolon : ∀ hdr ∈ headerFlags, ':' ∈ hdr.data) :
    ∃ header : HeaderMap, headerOfFlags headerFlags = Except.ok header ∧
      (header.map Prod.fst).Nodup ∧
      ∀ k : String, header.get k = lastWritten headerFlags k := by
  obtain ⟨header, hok, hnodup, hget⟩ := parseHeaders_ok headerFlags [] hcolon (by simp)
  refine ⟨header, hok, hnodup, fun k => ?_⟩
  rw [hget k]
  cases lastWritten headerFlags k with
  | some v => rfl
  | none => rfl

/-- C7, amended, at two flags with the same key: the later value is kept. -/
theorem C7_verbatim_keys_last_write_wins_witness :
    ∃ header : HeaderMap,
      headerOfFlags ["Accept: a", "Accept: b"] = Except.ok header ∧
      header.get "Accept" = some " b" :=
  match C7_verbatim_keys_last_write_wins ["Accept: a", "Accept: b"] (by decide) with
  | ⟨header, hok, _, hget⟩ => ⟨header, hok, (hget "Accept").trans (by decide)⟩

theorem parseHeaders_panics (flags : List String) (m : HeaderMap)
    (hbad : ∃ hdr ∈ flags, ':' ∉ hdr.data) :
    parseHeaders flags m = Except.error (Panic.indexOutOfRange 1 1) := by
  induction flags generalizing m with
  | nil => simp at hbad
  | cons hdr rest ih =>
    by_cases hc : ':' ∈ hdr.data
    · obtain ⟨k0, v0, hsplit⟩ := SplitN_colon hdr hc
      rw [parseHeaders]
      simp only [hsplit, List.get?_cons_zero, List.get?_cons_succ]
      apply ih
      obtain ⟨h, hh, hn⟩ := hbad
      rcases List.mem_cons.mp hh with e | e
      · subst e
        exact absurd hc hn
      · exact ⟨h, e, hn⟩
    · rw [parseHeaders]
      simp [SplitN_no_colon hdr hc]

/-- C8: whenever one of the header flags contains no colon, header parsing
ends in the run-time panic of an index out of range, index 1 on a split
result of length 1 (the access `hp[1]`), instead of a reported configuration
error. -/
theorem C8_flag_without_colon_panics (headerFlags : List String)
    (hbad : ∃ hdr ∈ headerFlags, ':' ∉ hdr.data) :
    headerOfFlags headerFlags = Except.error (Panic.indexOutOfRange 1 1) :=
  parseHeaders_panics headerFlags [] hbad

/-- C8, at the single flag `badheader`. -/
theorem C8_flag_without_colon_panics_witness :
    headerOfFlags ["badheader"] = Except.error (Panic.indexOutOfRange 1 1) :=
  C8_flag_without_colon_panics ["badheader"] ⟨"badheader", by simp, by decide⟩

/-! ## Channel capacities -/

theorem flagParse_last_c (args : List Flag) (c : Int) (g : Globals) :
    (flagParse (args ++ [Flag.c c]) g).goroutines = c := by
  simp [flagParse, List.foldl_append, Flag.apply]

theorem makeChan_ok (env : Env) (elemSize : Nat) (size cap : Int)
    (h : makeChan env elemSize size = Except.ok cap) : cap = size ∧ 0 ≤ size := by
  unfold makeChan at h
  split at h
  · cases h
  · split at h
    · cases h
      exact ⟨rfl, by omega⟩
    · cases h

/-- The sizes of a run that reaches the launch of the workers. -/
theorem mainToLaunch_ok (env : Env) (cl : CommandLine) (sizes : Sizes)
    (hreach : mainToLaunch env cl = Except.ok sizes) :
    sizes.statsAggregatorCap = 10 ∧
    sizes.fileQueueCap = (flagParse cl.flags (Globals.init Globals.declared)).goroutines ∧
    sizes.launchCount = (flagParse cl.flags (Globals.init Globals.declared)).goroutines ∧
    0 ≤ (flagParse cl.flags (Globals.init Globals.declared)).goroutines := by
  unfold mainToLaunch at hreach
  simp only at hreach
  split at hreach
  · cases hreach
  · rename_i statsCap hstats
    split at hreach
    · cases hreach
    · split at hreach
      · cases hreach
      · split at hreach
        · cases hreach
        · split at hreach
          · cases hreach
          · split at hreach
            · cases hreach
            · split at hreach
              · cases hreach
              · split at hreach
                · cases hreach
                · rename_i fileQueueCap hqueue
                  cases hreach
                  have h1 := makeChan_ok env 8 _ _ hstats
                  have h2 := makeChan_ok env 16 _ _ hqueue
                  refine ⟨h1.1, h2.1, ?_, h2.2⟩
                  simp only [Int.ofNat_eq_coe]
                  exact Int.toNat_of_nonneg h2.2

theorem resolveTestUrl_without_playback (env : Env) (g : Globals) (positional : List String)
    (h : g.playbackFile = "<empty>") :
    ∃ testUrl : String, resolveTestUrl env g positional = Except.ok testUrl ∧
      testUrl.length ≠ 0 := by
  unfold resolveTestUrl
  simp only [h, bne_self_eq_false, Bool.false_eq_true, if_false]
  cases positional with
  | nil => exact ⟨"foo", by simp, by decide⟩
  | cons a rest =>
    by_cases ha : a.length = 0
    · exact ⟨"foo", by simp [ha], by decide⟩
    · exact ⟨a, by simp [ha], ha⟩

/-- When every buffer can be allocated, the command line `-c c` with `c ≥ 0`
reaches the launch loop. -/
theorem mainToLaunch_c (env : Env) (c : Int) (positional : List String)
    (halloc : ∀ elemSize n : Nat, env.canAlloc elemSize n = true) (hc : 0 ≤ c) :
    mainToLaunch env { flags := [Flag.c c], positional := positional }
      = Except.ok { statsAggregatorCap := 10, fileQueueCap := c, launchCount := c } := by
  have hneg : ¬ c < 0 := by omega
  obtain ⟨testUrl, hres, hlen⟩ := resolveTestUrl_without_playback env
    (flagParse [Flag.c c] (Globals.init Globals.declared)) positional rfl
  simp only [flagParse, List.foldl_cons, List.foldl_nil, Flag.apply, Globals.init,
    Globals.declared] at hres
  unfold mainToLaunch
  simp [makeChan, halloc, Globals.init, Globals.declared, hres, hlen, hneg, flagParse,
    Flag.apply, headerOfFlags, parseHeaders, resolveReqBody, Int.toNat_of_nonneg hc]

/-- C10: on every command line whose last `-c` flag gives `c`, whatever the
other flags and the environment, a run of `main` that reaches the launch loop
has a stats channel of capacity 10, the default that `init` stored in
`goroutines`, because the channel is made before `flag.Parse()`; its URL queue
has capacity `c` and the launch loop starts `c` workers. And the command line
`-c c` alone, with `c ≥ 0` and every buffer allocated, does reach the launch
loop, with these sizes. -/
theorem C10_stats_capacity_is_the_flag_default (env : Env) (args : List Flag) (c : Int)
    (positional : List String) :
    (∀ sizes : Sizes,
      mainToLaunch env { flags := args ++ [Flag.c c], positional := positional }
          = Except.ok sizes →
        sizes.statsAggregatorCap = 10 ∧ sizes.fileQueueCap = c ∧ sizes.launchCount = c ∧
          0 ≤ c) ∧
    ((∀ elemSize n : Nat, env.canAlloc elemSize n = true) → 0 ≤ c →
      mainToLaunch env { flags := [Flag.c c], positional := positional }
        = Except.ok { statsAggregatorCap := 10, fileQueueCap := c, launchCount := c }) := by
  refine ⟨fun sizes hreach => ?_, mainToLaunch_c env c positional⟩
  have h := mainToLaunch_ok env _ sizes hreach
  simp only [flagParse_last_c] at h
  exact h

/-- C10, at `-url-file objects.txt -c 4`: the launch loop is reached with a
stats channel of capacity 10 for a URL queue of capacity 4 and 4 workers. -/
theorem C10_stats_capacity_is_the_flag_default_witness :
    mainToLaunch sampleEnv { flags := [Flag.urlFile "objects.txt", Flag.c 4], positional := [] }
      = Except.ok { statsAggregatorCap := 10, fileQueueCap := 4, launchCount := 4 } ∧
    ({ statsAggregatorCap := 10, fileQueueCap := 4, launchCount := 4 } : Sizes).statsAggregatorCap
      = 10 :=
  ⟨rfl, ((C10_stats_capacity_is_the_flag_default sampleEnv [Flag.urlFile "objects.txt"] 4 []).1
    { statsAggregatorCap := 10, fileQueueCap := 4, launchCount := 4 } rfl).1⟩

/-- A negative `-c` panics at `make(chan string, goroutines)`. -/
theorem mainToLaunch_negative_c :
    mainToLaunch sampleEnv { flags := [Flag.c (-1)], positional := [] }
      = Except.error (MainEnd.panicked Panic.makechanSizeOutOfRange) := by
  rfl

/-- A header flag without a colon panics before the URL queue is made. -/
theorem mainToLaunch_bad_header :
    mainToLaunch sampleEnv { flags := [Flag.H "badheader", Flag.c 4], positional := [] }
      = Except.error (MainEnd.panicked (Panic.indexOutOfRange 1 1)) := by
  rfl

/-! ## The stop path -/

theorem stopInv_start (statsCap : Nat) (workers : List RequesterStats)
    (sup : SupplierExit × List String) (totalDuration : Int) :
    StopInv (Sys.start statsCap workers sup totalDuration) := by
  simp [StopInv, Sys.start]

theorem stopInv_stepMain (s : Sys) (h : StopInv s) : StopInv (stepMain s) := by
  obtain ⟨hA, hB, hC, hE⟩ := h
  unfold stepMain
  split
  · split
    · refine ⟨?_, ?_, ?_, ?_⟩ <;> simp_all
    · exact ⟨hA, hB, hC, hE⟩
  · split
    · exact ⟨hA, hB, hC, hE⟩
    · refine ⟨?_, ?_, ?_, ?_⟩ <;> simp_all
  · exact ⟨hA, hB, hC, hE⟩
  · refine ⟨?_, ?_, ?_, ?_⟩ <;> simp_all
  · exact ⟨hA, hB, hC, hE⟩

theorem stopInv_stepAggregator (takeSignal : Bool) (s : Sys) (h : StopInv s) :
    StopInv (stepAggregator takeSignal s) := by
  obtain ⟨hA, hB, hC, hE⟩ := h
  unfold stepAggregator
  split
  · split
    · split
      · refine ⟨?_, ?_, ?_, ?_⟩ <;> simp_all
        rcases hm : s.mainPc <;> simp_all
      · exact ⟨hA, hB, hC, hE⟩
    · split
      · exact ⟨hA, hB, hC, hE⟩
      · split
        · refine ⟨?_, ?_, ?_, ?_⟩ <;> simp_all
        · exact ⟨hA, hB, hC, hE⟩
  · refine ⟨?_, ?_, ?_, ?_⟩ <;> simp_all
  · split
    · exact ⟨hA, hB, hC, hE⟩
    · refine ⟨?_, ?_, ?_, ?_⟩ <;> simp_all
  · split
    · exact ⟨hA, hB, hC, hE⟩
    · refine ⟨?_, ?_, ?_, ?_⟩ <;> simp_all
      rcases hm : s.mainPc <;> simp_all
  · split
    · refine ⟨?_, ?_, ?_, ?_⟩ <;> simp_all
    · exact ⟨hA, hB, hC, hE⟩
  · refine ⟨?_, ?_, ?_, ?_⟩ <;> simp_all
  · split
    · refine ⟨?_, ?_, ?_, ?_⟩ <;> simp_all
    · exact ⟨hA, hB, hC, hE⟩
  · exact ⟨hA, hB, hC, hE⟩

theorem stopInv_stepSupplier (s : Sys) (h : StopInv s) : StopInv (stepSupplier s) := by
  unfold stepSupplier
  split
  · exact h
  · split
    · split
      · exact h
      · split
        · exact h
        · exact h
    · split
      · split
        · exact h
        · exact h
      · exact h
      · exact h

theorem stopInv_stepWorker (a : Action) (s : Sys) (h : StopInv s) : StopInv (stepWorker a s) := by
  unfold stepWorker
  split
  · exact h
  · split
    · exact h
    · split
      · exact h
      · split
        · exact h
        · exact h
  · split
    · exact h
    · exact h
  · exact h

theorem stopInv_step (s : Sys) (a : Action) (h : StopInv s) : StopInv (step s a) := by
  unfold step
  split
  · exact h
  · cases a with
    | signal => exact h
    | main => exact stopInv_stepMain s h
    | aggregator takeSignal => exact stopInv_stepAggregator takeSignal s h
    | supplier => exact stopInv_stepSupplier s h
    | workerRecv => exact stopInv_stepWorker Action.workerRecv s h
    | workerExit => exact stopInv_stepWorker Action.workerExit s h
    | workerDone => exact stopInv_stepWorker Action.workerDone s h

theorem stopInv_run (sched : List Action) (s : Sys) (h : StopInv s) : StopInv (run sched s) := by
  unfold run
  induction sched generalizing s with
  | nil => exact h
  | cons a rest ih => exact ih (step s a) (stopInv_step s a h)

/-- C4: in every run of the goroutines of `main`, whatever the schedule, the
number of workers, the records they send and the list file, once the
aggregator has entered its `case <-sigChan` branch the main goroutine never
gets past `<-doneCh`: no report is printed and `main` does not return
normally. -/
theorem C4_signal_branch_never_returns (statsCap : Nat) (workers : List RequesterStats)
    (sup : SupplierExit × List String) (totalDuration : Int) (sched : List Action)
    (hsig : (run sched (Sys.start statsCap workers sup totalDuration)).sigTaken = true) :
    ((run sched (Sys.start statsCap workers sup totalDuration)).mainPc = MainPc.wgWait ∨
      (run sched (Sys.start statsCap workers sup totalDuration)).mainPc = MainPc.closeStats ∨
      (run sched (Sys.start statsCap workers sup totalDuration)).mainPc = MainPc.recvDone) ∧
    ¬ (run sched (Sys.start statsCap workers sup totalDuration)).stoppedCleanly := by
  have hinv := stopInv_run sched _ (stopInv_start statsCap workers sup totalDuration)
  obtain ⟨_, _, hC, _⟩ := hinv
  have hmain := (hC hsig).2
  refine ⟨hmain, ?_⟩
  intro hclean
  rw [hclean.1] at hmain
  simp at hmain

/-- C4, at the run `signalThenMainClose`: the signal branch was entered and
the run did not stop cleanly. -/
theorem C4_signal_branch_never_returns_witness :
    ¬ (run signalThenMainClose sampleStart).stoppedCleanly :=
  (C4_signal_branch_never_returns 10 [idleRecord, idleRecord]
    (supplier sampleFs "objects.txt" "http://h/" 1) 2000000000 signalThenMainClose
    (by decide)).2

/-- The stop path closes the stats channel twice: after the signal branch
closed it, the `close(statsAggregator)` of `main` panics. -/
theorem signalThenMainClose_panics :
    (run signalThenMainClose sampleStart).crash = some Panic.closeOfClosedChannel ∧
    (run signalThenMainClose sampleStart).mainPc = MainPc.closeStats ∧
    (run signalThenMainClose sampleStart).aggPc = AggPc.sigSendDone := by
  decide

/-- A worker that leaves its loop after the signal branch closed the stats
channel sends on a closed channel. -/
theorem signalThenWorkerExit_panics :
    (run signalThenWorkerExit sampleStart).crash = some Panic.sendOnClosedChannel := by
  decide

/-- The signal branch closes the URL queue a second time when the supplier
has already run its deferred close. -/
theorem supplierDoneThenSignal_panics :
    (run supplierDoneThenSignal sampleStart).crash = some Panic.closeOfClosedChannel ∧
    (run supplierDoneThenSignal sampleStart).aggPc = AggPc.sigCloseFileQueue := by
  decide

/-- Without a signal the same process stops cleanly with the empty report. -/
theorem noSignalSchedule_stops_cleanly :
    (run noSignalSchedule sampleStart).stoppedCleanly := by
  decide

end GoWrk
